import Mathlib

/-!
A verification development for the local-target layer of the `law` repository
(`law/target/local.py`): the `LocalFileSystem` operations (`chmod`, `remove`,
`mkdir`, `listdir`, `walk`, `copy`, `move`), the lazy temporary-path generation
of `LocalTarget.__init__`, and the `LocalFileTarget.localize` protocol.

The operating-system filesystem is modelled as an association list from path
strings to nodes (files with content and permission bits, or directories with
permission bits).  OS-level failures are injected through three static sets of
paths on which creation, permission change, or removal raises an error; every
OS primitive either fully succeeds or fails without changing the state, and
multi-step operations thread the state through each primitive so that a failure
in the middle of an operation keeps the effects of the steps already performed,
exactly as the Python source does.
-/

namespace LawLocal

/-! ## Path utilities (counterparts of `os.path` functions used by the source)

String splitting is implemented structurally on character lists so that every
definition evaluates by kernel reduction. -/

/-- The path separator character `/`. -/
def slashChar : Char := Char.ofNat 47

/-- The extension separator character `.`. -/
def dotChar : Char := Char.ofNat 46

/-- The scheme separator character `:`. -/
def colonChar : Char := Char.ofNat 58

/-- Split a character list on a separator character, keeping empty pieces
(the behaviour of Python `str.split` with a one-character separator). -/
def splitChar (sep : Char) : List Char → List (List Char)
  | [] => [[]]
  | c :: rest =>
      let r := splitChar sep rest
      if c = sep then [] :: r
      else
        match r with
        | h :: t => (c :: h) :: t
        | [] => [[c]]

/-- Path components, splitting on the separator (counterpart of viewing a POSIX
path as its `"/"`-separated pieces). -/
def comps (p : String) : List String := (splitChar slashChar p.data).map String.mk

/-- Rebuild a path from components. -/
def joinc : List String → String
  | [] => ""
  | [x] => x
  | x :: y :: t => x ++ "/" ++ joinc (y :: t)

/-- Counterpart of `os.path.dirname`: everything before the last separator;
`dirname "/a" = "/"`, `dirname "a" = ""`. -/
def dirname (p : String) : String :=
  let cs := comps p
  if cs.length ≤ 1 then ""
  else
    let d := joinc cs.dropLast
    if d = "" then "/" else d

/-- Counterpart of `os.path.basename`: everything after the last separator. -/
def basename (p : String) : String := (comps p).getLastD ""

/-- Counterpart of `os.path.join a b` for a relative second argument. -/
def pathJoin (a b : String) : String := a ++ "/" ++ b

/-- Component-wise prefix test on component lists. -/
def listPrefixEq : List String → List String → Bool
  | [], _ => true
  | _ :: _, [] => false
  | a :: as, b :: bs => a = b && listPrefixEq as bs

/-- `a` is the path `b` itself or an ancestor directory of it, component-wise. -/
def pathPrefixOf (a b : String) : Bool := listPrefixEq (comps a) (comps b)

/-- All ancestor paths of `p` that `os.makedirs` would have to create, in
creation order, ending with `p` itself (the non-empty component prefixes). -/
def ancestorsOf (p : String) : List String :=
  let cs := comps p
  (List.range cs.length).filterMap (fun i =>
    let pre := cs.take (i + 1)
    if pre = [] ∨ pre = [""] then none else some (joinc pre))

/-! ## Scheme handling

`get_scheme` / `remove_scheme` live in `law/target/file.py`, which is not part
of the sources under review; they are modelled from the spec. -/

/-- Split a character list at the first occurrence of `://`, returning the
part before and the part after it. -/
def splitScheme : List Char → Option (List Char × List Char)
  | c1 :: c2 :: c3 :: rest =>
      if c1 = colonChar ∧ c2 = slashChar ∧ c3 = slashChar then some ([], rest)
      else
        match splitScheme (c2 :: c3 :: rest) with
        | some (pre, post) => some (c1 :: pre, post)
        | none => none
  | _ => none

/-- Modelled from the spec: `law.target.file.get_scheme` (file not in src).
"A path may be prefixed `scheme://...`" — returns the non-empty scheme prefix
of the path if it carries one. -/
def get_scheme (p : String) : Option String :=
  match splitScheme p.data with
  | some (pre, _) => if pre = [] then none else some (String.mk pre)
  | none => none

/-- Modelled from the spec: `law.target.file.remove_scheme` (file not in src).
Strips everything up to and including the first `://` from the path, if
present. -/
def remove_scheme (p : String) : String :=
  match splitScheme p.data with
  | some (pre, post) => if pre = [] then p else String.mk post
  | none => p

/-- `LocalFileSystem._unscheme` (local.py line 72): strip the scheme only when
it is `file`; any other path is passed through. -/
def unscheme (p : String) : String :=
  if get_scheme p = some "file" then remove_scheme p else p

/-! ## The filesystem state -/

/-- A node of the modelled filesystem: a regular file with its content and
permission bits, or a directory with its permission bits. -/
inductive FSNode where
  | file (content : String) (perm : Nat)
  | dir (perm : Nat)
deriving DecidableEq

/-- Filesystem state: association list from (absolute) path strings to nodes.
The first binding of a path is the authoritative one. -/
abbrev FS := List (String × FSNode)

/-- Static fault injection: paths on which the OS denies creation, permission
change, or removal (modelling `PermissionError` and similar `OSError`s raised
by `os.makedirs`, `os.chmod`, `os.remove`, `shutil.copy2`, `shutil.move`,
`shutil.rmtree`).  Kept outside the mutable state, so the caller's block inside
`localize` cannot alter them. -/
structure Faults where
  createDenied : List String
  chmodDenied : List String
  removeDenied : List String
deriving DecidableEq

/-- Kinds of OS-level errors surfaced by the modelled primitives.
`noFreshName` is an artifact of bounding the (in the source, unbounded)
random-name retry loop by an explicit list of random draws.
`callerError` stands for an exception raised by the caller's block inside a
`localize` session. -/
inductive Err where
  | fileExists
  | notFound
  | permission
  | isADirectory
  | notADirectory
  | dirNotEmpty
  | noFreshName
  | callerError
deriving DecidableEq

/-- Modelled from the spec: `law.util.is_file_exists_error` (file not in src).
Recognizes exactly the already-exists kind of OS error. -/
def is_file_exists_error (e : Err) : Bool := e = Err.fileExists

/-- Look up the node stored at a path (the first binding wins). -/
def lookupFS : FS → String → Option FSNode
  | [], _ => none
  | kv :: t, p => if kv.1 = p then some kv.2 else lookupFS t p

/-- Counterpart of `os.path.exists`. -/
def existsFS (s : FS) (p : String) : Bool := (lookupFS s p).isSome

/-- Counterpart of `os.path.isdir`. -/
def isdirFS (s : FS) (p : String) : Bool :=
  match lookupFS s p with
  | some (.dir _) => true
  | _ => false

/-- Counterpart of `os.path.isfile`. -/
def isfileFS (s : FS) (p : String) : Bool :=
  match lookupFS s p with
  | some (.file _ _) => true
  | _ => false

/-- Drop every binding of a path. -/
def delFS (s : FS) (p : String) : FS := s.filter (fun kv => ¬ kv.1 = p)

/-- Store a node at a path, replacing any previous binding. -/
def setFS (s : FS) (p : String) (n : FSNode) : FS := (p, n) :: delFS s p

/-! ## OS primitives (atomic: they either succeed or fail without effect) -/

/-- Counterpart of `os.chmod`. -/
def osChmod (fl : Faults) (s : FS) (p : String) (pm : Nat) : FS × Option Err :=
  match lookupFS s p with
  | none => (s, some .notFound)
  | some (.file c _) =>
      if p ∈ fl.chmodDenied then (s, some .permission)
      else (setFS s p (.file c pm), none)
  | some (.dir _) =>
      if p ∈ fl.chmodDenied then (s, some .permission)
      else (setFS s p (.dir pm), none)

/-- Counterpart of `os.remove` (files only). -/
def osRemoveFile (fl : Faults) (s : FS) (p : String) : FS × Option Err :=
  match lookupFS s p with
  | none => (s, some .notFound)
  | some (.dir _) => (s, some .isADirectory)
  | some (.file _ _) =>
      if p ∈ fl.removeDenied then (s, some .permission) else (delFS s p, none)

/-- Counterpart of `os.rmdir` (empty directories only). -/
def osRmdir (fl : Faults) (s : FS) (p : String) : FS × Option Err :=
  match lookupFS s p with
  | none => (s, some .notFound)
  | some (.file _ _) => (s, some .notADirectory)
  | some (.dir _) =>
      if s.any (fun kv => pathPrefixOf p kv.1 ∧ ¬ kv.1 = p) then (s, some .dirNotEmpty)
      else if p ∈ fl.removeDenied then (s, some .permission)
      else (delFS s p, none)

/-- Counterpart of `shutil.rmtree`: remove a directory and everything below. -/
def shutilRmtree (fl : Faults) (s : FS) (p : String) : FS × Option Err :=
  match lookupFS s p with
  | some (.dir _) =>
      if p ∈ fl.removeDenied then (s, some .permission)
      else (s.filter (fun kv => ¬ pathPrefixOf p kv.1), none)
  | _ => (s, some .notADirectory)

/-- Directory permission produced by the OS when no explicit mode is given
(the process umask applied to the default mode). -/
def defaultDirPerm : Nat := 493

/-- Create each of the given paths as a directory with the given permission,
skipping the ones that already exist as directories; failing when a path
exists as a file or its creation is denied.  The directories created before a
failure are kept, as with `os.makedirs`. -/
def createDirs (fl : Faults) (s : FS) (pm : Nat) : List String → FS × Option Err
  | [] => (s, none)
  | a :: rest =>
      match lookupFS s a with
      | some (.dir _) => createDirs fl s pm rest
      | some (.file _ _) => (s, some .notADirectory)
      | none =>
          if a ∈ fl.createDenied then (s, some .permission)
          else createDirs fl (setFS s a (.dir pm)) pm rest

/-- Counterpart of `os.makedirs`: recursively create a directory and its
missing ancestors. -/
def osMakedirs (fl : Faults) (s : FS) (p : String) (pm : Nat) : FS × Option Err :=
  if existsFS s p then (s, some .fileExists)
  else createDirs fl s pm (ancestorsOf p)

/-- Counterpart of `os.mkdir`: create a single directory whose parent exists. -/
def osMkdirOne (fl : Faults) (s : FS) (p : String) (pm : Nat) : FS × Option Err :=
  if existsFS s p then (s, some .fileExists)
  else if ¬ (dirname p = "" ∨ dirname p = "/" ∨ isdirFS s (dirname p)) then (s, some .notFound)
  else if p ∈ fl.createDenied then (s, some .permission)
  else (setFS s p (.dir pm), none)

/-- Counterpart of `shutil.copy2`: copy file content together with metadata
(the permission bits travel with the copy).  Opening the destination fails
when its parent directory does not exist (the root `/` always exists). -/
def shutilCopy2 (fl : Faults) (s : FS) (src dst : String) : FS × Option Err :=
  match lookupFS s src with
  | none => (s, some .notFound)
  | some (.dir _) => (s, some .isADirectory)
  | some (.file c pm) =>
      if ¬ (dirname dst = "" ∨ dirname dst = "/" ∨ isdirFS s (dirname dst)) then
        (s, some .notFound)
      else if dst ∈ fl.createDenied then (s, some .permission)
      else (setFS s dst (.file c pm), none)

/-- Counterpart of `shutil.move` for the same-volume case: an atomic rename
that relocates the node (content and permission bits) onto the destination.
Renaming fails when the destination's parent directory does not exist. -/
def shutilMove (fl : Faults) (s : FS) (src dst : String) : FS × Option Err :=
  match lookupFS s src with
  | none => (s, some .notFound)
  | some n =>
      if ¬ (dirname dst = "" ∨ dirname dst = "/" ∨ isdirFS s (dirname dst)) then
        (s, some .notFound)
      else if dst ∈ fl.createDenied ∨ src ∈ fl.removeDenied then (s, some .permission)
      else (setFS (delFS s src) dst n, none)

/-! ## LocalFileSystem (local.py lines 34-244)

Each operation first strips a `file://` scheme from path arguments via
`unscheme`, then acts on the modelled OS state.  Multi-step operations return
the state reached so far together with an optional error, mirroring the
sequential effect of the Python statements. -/

/-- The configuration carried by a `LocalFileSystem` instance:
`default_file_perm` and `default_directory_perm` (`None` meaning "leave to the
OS default/umask"). -/
structure LocalFS where
  default_file_perm : Option Nat
  default_directory_perm : Option Nat
deriving DecidableEq

/-- `LocalFileSystem.exists` (line 81). -/
def fsExists (s : FS) (p : String) : Bool := existsFS s (unscheme p)

/-- `LocalFileSystem.isdir` (line 84). -/
def fsIsdir (s : FS) (p : String) : Bool := isdirFS s (unscheme p)

/-- `LocalFileSystem.chmod` (lines 90-92): acts only when `perm` is not `None`
and (`not silent` or the path exists). -/
def chmod (fl : Faults) (s : FS) (p : String) (perm : Option Nat)
    (silent : Bool := true) : FS × Option Err :=
  match perm with
  | none => (s, none)
  | some pm =>
      if ¬ silent ∨ fsExists s p then osChmod fl s (unscheme p) pm
      else (s, none)

/-- `LocalFileSystem.remove` (lines 94-103). -/
def remove (fl : Faults) (s : FS) (p : String) (recursive : Bool := true)
    (silent : Bool := true) : FS × Option Err :=
  let p := unscheme p
  if ¬ silent ∨ fsExists s p then
    if fsIsdir s p then
      if recursive then shutilRmtree fl s p else osRmdir fl s p
    else osRemoveFile fl s p
  else (s, none)

/-- The `if perm is None: perm = default` pattern of the source: an explicit
permission wins over the configured default. -/
def resolvePerm (perm dflt : Option Nat) : Option Nat :=
  match perm with
  | some x => some x
  | none => dflt

/-- `LocalFileSystem.mkdir` (lines 105-129).  Returns unchanged when the path
already exists; otherwise resolves the permission default, creates the
directory (`os.makedirs` or `os.mkdir`), swallows a creation failure unless
`not silent and not is_file_exists_error(e)`, then chmods the path.  The
umask save/restore of the source has no further observable effect here: with
an explicit permission the created directories receive exactly it. -/
def mkdir (fl : Faults) (lfs : LocalFS) (s : FS) (p : String)
    (perm : Option Nat) (recursive : Bool := true) (silent : Bool := true) :
    FS × Option Err :=
  if fsExists s p then (s, none)
  else
    let perm1 := resolvePerm perm lfs.default_directory_perm
    let pm := perm1.getD defaultDirPerm
    let r :=
      if recursive then osMakedirs fl s (unscheme p) pm
      else osMkdirOne fl s (unscheme p) pm
    match r with
    | (s1, some e) =>
        if ¬ silent ∧ ¬ is_file_exists_error e then (s1, some e)
        else chmod fl s1 p perm1 true
    | (s1, none) => chmod fl s1 p perm1 true

/-- `LocalFileSystem.listdir` (lines 131-145) restricted to the defaults used
by `walk` (`pattern=None`, `type=None`; those filters are not exercised by any
claim): the names of the direct children of the path, in state order. -/
def listdir (s : FS) (p : String) : List String :=
  let p := unscheme p
  s.filterMap (fun kv => if dirname kv.1 = p then some (basename kv.1) else none)

/-- One yielded tuple of `walk`: current directory, subdirectory names, file
names, current depth. -/
abbrev WalkEntry := String × List String × List String × Nat

/-- The loop of `LocalFileSystem.walk` (lines 147-170): a queue-based
breadth-first traversal with a depth cutoff.  `fuel` bounds the number of loop
iterations (the source's `while` terminates because real directory trees are
finite; every theorem below is fuel-parametric). -/
def walkAux (s : FS) (maxDepth : Int) : List (String × Nat) → Nat → List WalkEntry
  | _, 0 => []
  | [], _ + 1 => []
  | (d, depth) :: rest, fuel + 1 =>
      if 0 ≤ maxDepth ∧ maxDepth < (depth : Int) then walkAux s maxDepth rest fuel
      else
        let elems := listdir s d
        let dirs := elems.filter (fun e => fsIsdir s (pathJoin d e))
        let files := elems.filter (fun e => ¬ fsIsdir s (pathJoin d e))
        (d, dirs, files, depth) ::
          walkAux s maxDepth (rest ++ dirs.map (fun e => (pathJoin d e, depth + 1))) fuel

/-- `LocalFileSystem.walk` (lines 147-170). -/
def walk (s : FS) (p : String) (maxDepth : Int) (fuel : Nat) : List WalkEntry :=
  walkAux s maxDepth [(unscheme p, 0)] fuel

/-- The same loop with the depth check removed, as a reference for the meaning
of a negative `max_depth`. -/
def walkAuxNB (s : FS) : List (String × Nat) → Nat → List WalkEntry
  | _, 0 => []
  | [], _ + 1 => []
  | (d, depth) :: rest, fuel + 1 =>
      let elems := listdir s d
      let dirs := elems.filter (fun e => fsIsdir s (pathJoin d e))
      let files := elems.filter (fun e => ¬ fsIsdir s (pathJoin d e))
      (d, dirs, files, depth) ::
        walkAuxNB s (rest ++ dirs.map (fun e => (pathJoin d e, depth + 1))) fuel

/-- `walk` without a depth bound (reference semantics for `max_depth < 0`). -/
def walkNB (s : FS) (p : String) (fuel : Nat) : List WalkEntry :=
  walkAuxNB s [(unscheme p, 0)] fuel

/-- `LocalFileSystem._prepare_dst_dir` (lines 187-200): if `dst` is an existing
directory, append the basename of `src`; otherwise create the missing parent
directory of `dst` (recursively, silently).  Returns the resolved destination
path alongside the state and error. -/
def prepare_dst_dir (fl : Faults) (lfs : LocalFS) (s : FS) (src dst : String)
    (perm : Option Nat) : (FS × Option Err) × String :=
  let d := unscheme dst
  if fsIsdir s d then ((s, none), pathJoin d (basename src))
  else
    let dstDir := dirname d
    if ¬ dstDir = "" ∧ ¬ fsExists s dstDir then
      (mkdir fl lfs s dstDir perm true true, d)
    else ((s, none), d)

/-- `LocalFileSystem.copy` (lines 202-214): resolve the destination, copy the
bytes with metadata (`shutil.copy2`), then chmod the destination with `perm`
or the filesystem default.  Returns the resolved destination path. -/
def copy (fl : Faults) (lfs : LocalFS) (s : FS) (src dst : String)
    (perm dirPerm : Option Nat) : (FS × Option Err) × String :=
  let sp := unscheme src
  match prepare_dst_dir fl lfs s sp dst dirPerm with
  | ((s1, some e), d) => ((s1, some e), d)
  | ((s1, none), d) =>
      match shutilCopy2 fl s1 sp d with
      | (s2, some e) => ((s2, some e), d)
      | (s2, none) =>
          (chmod fl s2 d (resolvePerm perm lfs.default_file_perm) true, d)

/-- `LocalFileSystem.move` (lines 216-228): like `copy` but the source is
relocated by `shutil.move`. -/
def move (fl : Faults) (lfs : LocalFS) (s : FS) (src dst : String)
    (perm dirPerm : Option Nat) : (FS × Option Err) × String :=
  let sp := unscheme src
  match prepare_dst_dir fl lfs s sp dst dirPerm with
  | ((s1, some e), d) => ((s1, some e), d)
  | ((s1, none), d) =>
      match shutilMove fl s1 sp d with
      | (s2, some e) => ((s2, some e), d)
      | (s2, none) =>
          (chmod fl s2 d (resolvePerm perm lfs.default_file_perm) true, d)

/-! ## LocalTarget temporary-path generation (local.py lines 251-288) -/

/-- Zero-padded 9-digit rendering, counterpart of `"{:09d}".format(n)`. -/
def pad9 (n : Nat) : String :=
  let t := toString n
  String.mk (List.replicate (9 - t.length) (Char.ofNat 48)) ++ t

/-- The candidate basename drawn in the retry loop (line 272):
`"luigi-tmp-{:09d}".format(random.randint(0, 999999999))`. -/
def tmpBasename (r : Nat) : String := "luigi-tmp-" ++ pad9 r

/-- Extension normalization of line 279: prepend a dot unless present. -/
def normExt (e : String) : String :=
  match e.data with
  | c :: _ => if c = dotChar then e else "." ++ e
  | [] => "." ++ e

/-- The `is_tmp` argument of `LocalTarget.__init__` when no path is given:
either boolean `True`, or a string holding a desired file extension. -/
inductive TmpFlag where
  | bool
  | ext (e : String)
deriving DecidableEq

/-- The random-path retry loop of `LocalTarget.__init__` (lines 270-281):
draw a candidate name, retry while the candidate path exists, then append the
extension when `is_tmp` is a string.  The source draws random integers in an
unbounded `while True`; here the successive draws are an explicit list and the
loop returns `none` when they are exhausted. -/
def genTmpPath (s : FS) (tmpDir : String) (flag : TmpFlag) : List Nat → Option String
  | [] => none
  | r :: rs =>
      let p := pathJoin tmpDir (tmpBasename r)
      if fsExists s p then genTmpPath s tmpDir flag rs
      else
        some (match flag with
          | .bool => p
          | .ext e => p ++ normExt e)

/-- Modelled from the spec: `FileSystemFileTarget.ext(n=1)` (law/target/file.py,
not in src) — the last file-name extension of the path, or the empty string
when there is none ("a temporary sibling FileTarget (same extension as
self)"). -/
def ext1 (p : String) : String :=
  let parts := (splitChar dotChar (basename p).data).map String.mk
  if parts.length ≤ 1 then "" else parts.getLastD ""

/-- The `is_tmp` flag that `localize` passes to the temporary target
constructor (lines 326/343): `self.ext(n=1) or True`. -/
def tmpFlagOf (selfPath : String) : TmpFlag :=
  match ext1 selfPath with
  | "" => .bool
  | e => .ext e

/-- The temporary-target construction inside `localize`
(`self.__class__(is_tmp=..., tmp_dir=tmp_dir)`, backed by
`LocalTarget.__init__` lines 256-281): ensure the temp root exists (creating
it with the configured `tmp_dir_permission`), then generate a fresh random
path.  Returns the state (the temp root may have been created), an error, and
the generated path. -/
def mkTmpTarget (fl : Faults) (lfs : LocalFS) (tmpDirPerm : Option Nat)
    (s : FS) (tmpDir : String) (flag : TmpFlag) (rng : List Nat) :
    (FS × Option Err) × Option String :=
  let r := if fsExists s tmpDir then (s, none) else mkdir fl lfs s tmpDir tmpDirPerm true true
  match r with
  | (s1, some e) => ((s1, some e), none)
  | (s1, none) =>
      match genTmpPath s1 tmpDir flag rng with
      | none => ((s1, some .noFreshName), none)
      | some p => ((s1, none), some p)

/-! ## Target-level wrappers used by `localize`

These live in `law/target/file.py`, which is not part of the sources under
review; they are modelled from the spec ("thin wrappers ... which extract each
other's concrete path and filesystem and delegate to `FileSystem.copy`/`move`",
"`touch` (ensure directory exists)"). -/

/-- Modelled from the spec: `FileSystemFileTarget.copy_to` via
`LocalFileTarget.copy_to_local` (local.py line 299) — delegate to
`LocalFileSystem.copy` with both concrete paths and default permissions. -/
def copyToLocal (fl : Faults) (lfs : LocalFS) (s : FS) (srcPath dstPath : String) :
    FS × Option Err :=
  (copy fl lfs s srcPath dstPath none none).1

/-- Modelled from the spec: `FileSystemFileTarget.move_to` via
`LocalFileTarget.move_to_local` (local.py line 305) — delegate to
`LocalFileSystem.move` with both concrete paths and the given permissions. -/
def moveToLocal (fl : Faults) (lfs : LocalFS) (s : FS) (srcPath dstPath : String)
    (perm dirPerm : Option Nat) : FS × Option Err :=
  (move fl lfs s srcPath dstPath perm dirPerm).1

/-- Modelled from the spec: `FileSystemTarget.remove` (law/target/file.py, not
in src) — delegate to `LocalFileSystem.remove` on the target's path with the
default recursive and silent flags. -/
def targetRemove (fl : Faults) (s : FS) (p : String) : FS × Option Err :=
  remove fl s p true true

/-- Modelled from the spec: `self.parent.touch(perm=dir_perm)` (local.py line
363), `FileSystemDirectoryTarget.touch` not in src — "ensure the parent
directory exists (created with `dirPerm` if missing)". -/
def parentTouch (fl : Faults) (lfs : LocalFS) (s : FS) (selfPath : String)
    (dirPerm : Option Nat) : FS × Option Err :=
  mkdir fl lfs s (dirname selfPath) dirPerm true true

/-! ## The localize protocol (local.py lines 311-369) -/

/-- The localize mode; the source validates `mode in ("r", "w", "a")` before
any filesystem action and raises otherwise — the unknown-mode branch is
unrepresentable in this inductive. -/
inductive Mode where
  | r
  | w
  | a
deriving DecidableEq

/-- The caller's block of a `localize` session: it receives the path of the
yielded target and the state at the yield point, and produces the state at the
end of the block together with the exception it raises, if any. -/
abbrev Body := String → FS → FS × Option Err

/-- `LocalFileTarget.localize` (lines 311-369), as a function from the state at
entry to the state at exit together with the exception propagated out of the
session, if any.  Faithful details: the default of `is_tmp` is
`mode in ("w", "a")`; in read-with-copy and in the append pre-copy the
`copy_to_local` call sits *before* the `try`, so a failure there propagates
without running the `finally` cleanup; in the write/append temp branch a
successful block is followed by the move (only when the temp target exists,
otherwise only a warning is emitted) and the `finally` removes the temp
target on every exit of the block, an exception raised by the cleanup itself
replacing the pending one, as in Python. -/
def localize (fl : Faults) (lfs : LocalFS) (tmpDirPerm : Option Nat)
    (selfPath : String) (s : FS) (mode : Mode) (perm dirPerm : Option Nat)
    (tmpDir : String) (rng : List Nat) (isTmpOv : Option Bool) (body : Body) :
    FS × Option Err :=
  let is_tmp := isTmpOv.getD (mode = Mode.w ∨ mode = Mode.a)
  if mode = Mode.r then
    if is_tmp then
      match mkTmpTarget fl lfs tmpDirPerm s tmpDir (tmpFlagOf selfPath) rng with
      | ((s1, some e), _) => (s1, some e)
      | ((s1, none), none) => (s1, some .noFreshName)
      | ((s1, none), some tmpP) =>
          match copyToLocal fl lfs s1 selfPath tmpP with
          | (s2, some e) => (s2, some e)
          | (s2, none) =>
              let (s3, eb) := body tmpP s2
              let (s4, er) := targetRemove fl s3 tmpP
              (s4, match er with | some x => some x | none => eb)
    else body selfPath s
  else
    if is_tmp then
      match mkTmpTarget fl lfs tmpDirPerm s tmpDir (tmpFlagOf selfPath) rng with
      | ((s1, some e), _) => (s1, some e)
      | ((s1, none), none) => (s1, some .noFreshName)
      | ((s1, none), some tmpP) =>
          let rc := if mode = Mode.a ∧ fsExists s1 selfPath
                    then copyToLocal fl lfs s1 selfPath tmpP
                    else (s1, none)
          match rc with
          | (s2, some e) => (s2, some e)
          | (s2, none) =>
              let (s3, eb) := body tmpP s2
              match eb with
              | some e =>
                  let (s4, er) := targetRemove fl s3 tmpP
                  (s4, some (er.getD e))
              | none =>
                  let (s4, e4) :=
                    if fsExists s3 tmpP
                    then moveToLocal fl lfs s3 tmpP selfPath perm dirPerm
                    else (s3, none)
                  let (s5, er) := targetRemove fl s4 tmpP
                  (s5, match er with | some x => some x | none => e4)
    else
      match parentTouch fl lfs s selfPath dirPerm with
      | (s1, some e) => (s1, some e)
      | (s1, none) =>
          let (s2, eb) := body selfPath s1
          match eb with
          | some e => (s2, some e)
          | none =>
              if fsExists s2 selfPath then chmod fl s2 selfPath perm true
              else (s2, none)

/-! ## Concrete instances used by the closed theorems and witnesses -/

/-- No fault injection. -/
def flNone : Faults := ⟨[], [], []⟩

/-- A filesystem configuration with no default permissions. -/
def lfsNone : LocalFS := ⟨none, none⟩

/-- A single existing directory `/d`. -/
def sDirD : FS := [("/d", FSNode.dir 493)]

/-- A directory `/r` holding one file `/r/f`; `/r/x` does not exist. -/
def sRoot : FS := [("/r", FSNode.dir 493), ("/r/f", FSNode.file "keep" 420)]

/-- Faults denying creation of `/r/x`. -/
def flDenyCreate : Faults := ⟨["/r/x"], [], []⟩

/-- Faults denying removal of `/r/f`. -/
def flDenyRemove : Faults := ⟨[], [], ["/r/f"]⟩

/-- Temp root `/t` pre-populated with three colliding candidate names. -/
def sCollide : FS :=
  [("/t", FSNode.dir 493),
   ("/t/luigi-tmp-000000001", FSNode.file "" 420),
   ("/t/luigi-tmp-000000002", FSNode.file "" 420),
   ("/t/luigi-tmp-000000003", FSNode.file "" 420)]

/-- Temp root `/t` containing exactly the name that the extension case of the
temp-path generator will produce for the draw `5` and extension `txt`. -/
def sExtCollide : FS :=
  [("/t", FSNode.dir 493), ("/t/luigi-tmp-000000005.txt", FSNode.file "" 420)]

/-- A directory tree of depth 3 below the root `/t`: `/t/a/c/d` is a
great-grandchild file, `/t/b` a child file. -/
def fsTree : FS :=
  [("/t", FSNode.dir 493),
   ("/t/a", FSNode.dir 493),
   ("/t/b", FSNode.file "" 420),
   ("/t/a/c", FSNode.dir 493),
   ("/t/a/c/d", FSNode.file "" 420)]

/-- A caller block that raises without touching the state. -/
def bodyRaise : Body := fun _ t => (t, some Err.callerError)

/-- A caller block that returns normally without touching the state. -/
def bodyNoop : Body := fun _ t => (t, none)

/-- A caller block modelling a writer that opens the yielded target in append
mode and writes `b`: the yielded path ends up with its previous content (none
for a fresh file) extended by `b`. -/
def appendBody (b : String) : Body := fun p t =>
  match lookupFS t p with
  | some (.file c pm) => (setFS t p (.file (c ++ b) pm), none)
  | _ => (setFS t p (.file b 420), none)

/-- A caller block that writes `b` to the yielded path and then raises. -/
def writeThenRaise (b : String) : Body := fun p t =>
  (setFS t p (.file b 420), some Err.callerError)

/-- State for the localize counterexample: temp root `/t`, source file `/f`. -/
def sLoc : FS := [("/t", FSNode.dir 493), ("/f", FSNode.file "data" 420)]

/-- Configuration with a default file permission, so copies are chmodded. -/
def lfsPerm : LocalFS := ⟨some 420, none⟩

/-- Faults denying chmod of the temp name that the localize counterexample
session generates. -/
def flDenyChmodTmp : Faults := ⟨[], ["/t/luigi-tmp-000000007"], []⟩

/-- State for the localize witnesses: a work directory `/w` holding the real
target `/w/out.txt` with content `A`, and the temp root `/t`. -/
def sW : FS :=
  [("/w", FSNode.dir 493), ("/w/out.txt", FSNode.file "A" 420),
   ("/t", FSNode.dir 493)]

/-! # Theorems -/

/-! ## Association-list state lemmas -/

theorem lookupFS_filter_keep (f : String × FSNode → Bool) (q : String)
    (hq : ∀ n, f (q, n) = true) :
    ∀ s : FS, lookupFS (s.filter f) q = lookupFS s q := by
  intro s
  induction s with
  | nil => rfl
  | cons kv t ih =>
      obtain ⟨k, n⟩ := kv
      by_cases hk : k = q
      · subst hk
        rw [List.filter_cons, hq n]
        simp [lookupFS]
      · rw [List.filter_cons]
        cases hf : f (k, n) with
        | true => simp [lookupFS, hk, ih]
        | false => simp [lookupFS, hk, ih]

theorem lookupFS_filter_drop (f : String × FSNode → Bool) (q : String)
    (hq : ∀ n, f (q, n) = false) :
    ∀ s : FS, lookupFS (s.filter f) q = none := by
  intro s
  induction s with
  | nil => rfl
  | cons kv t ih =>
      obtain ⟨k, n⟩ := kv
      by_cases hk : k = q
      · subst hk
        rw [List.filter_cons, hq n]
        simpa using ih
      · rw [List.filter_cons]
        cases hf : f (k, n) with
        | true => simp [lookupFS, hk, ih]
        | false => simpa using ih

theorem lookupFS_delFS_ne (s : FS) (p q : String) (h : ¬ q = p) :
    lookupFS (delFS s p) q = lookupFS s q :=
  lookupFS_filter_keep _ q (fun _ => by simp [h]) s

theorem lookupFS_delFS_self (s : FS) (p : String) :
    lookupFS (delFS s p) p = none :=
  lookupFS_filter_drop _ p (fun _ => by simp) s

theorem lookupFS_setFS_self (s : FS) (p : String) (n : FSNode) :
    lookupFS (setFS s p n) p = some n := by
  simp [setFS, lookupFS]

theorem lookupFS_setFS_ne (s : FS) (p q : String) (n : FSNode) (h : ¬ q = p) :
    lookupFS (setFS s p n) q = lookupFS s q := by
  rw [setFS, lookupFS]
  rw [if_neg (fun e => h e.symm), lookupFS_delFS_ne s p q h]

theorem existsFS_of_lookup_eq (s1 s2 : FS) (p : String)
    (h : lookupFS s1 p = lookupFS s2 p) : existsFS s1 p = existsFS s2 p := by
  simp [existsFS, h]

theorem isfileFS_of_lookup_eq (s1 s2 : FS) (p : String)
    (h : lookupFS s1 p = lookupFS s2 p) : isfileFS s1 p = isfileFS s2 p := by
  simp only [isfileFS, h]

theorem isdirFS_of_lookup_eq (s1 s2 : FS) (p : String)
    (h : lookupFS s1 p = lookupFS s2 p) : isdirFS s1 p = isdirFS s2 p := by
  simp only [isdirFS, h]

/-! ## C9: scheme stripping -/

/-- C9 counterexample: the claim says a path carrying a scheme other than
`file` "is an error for this backend", but `_unscheme` passes such a path
through unchanged and the operations then use it as a literal path — here
`exists` simply answers about the literal key, no error occurs. -/
theorem unscheme_foreign_scheme_passthrough :
    unscheme "http://host/a.txt" = "http://host/a.txt" ∧
    fsExists [("http://host/a.txt", FSNode.file "x" 420)] "http://host/a.txt" = true := by
  constructor
  · rfl
  · decide

/-- C9 (amended): every path argument passes through `_unscheme` before use
(`exists` shown as representative), and `_unscheme` strips exactly the `file`
scheme: a `file://` prefix is removed, while a path carrying any other scheme
(or none) is passed through unchanged rather than rejected. -/
theorem unscheme_file_scheme_only (s : FS) (p : String) :
    (get_scheme p = some "file" → unscheme p = remove_scheme p) ∧
    (¬ get_scheme p = some "file" → unscheme p = p) ∧
    fsExists s p = existsFS s (unscheme p) := by
  refine ⟨fun h => ?_, fun h => ?_, rfl⟩
  · rw [unscheme, if_pos h]
  · rw [unscheme, if_neg h]

/-- Witness for C9 applying the theorem at a `file://` path and at an `http://`
path. -/
theorem unscheme_file_scheme_only_app :
    unscheme "file:///d/f.txt" = remove_scheme "file:///d/f.txt" ∧
    unscheme "http://h/f.txt" = "http://h/f.txt" :=
  ⟨(unscheme_file_scheme_only [] "file:///d/f.txt").1 (by decide),
   (unscheme_file_scheme_only [] "http://h/f.txt").2.1 (by decide)⟩

/-! ## C3: mkdir on an existing path -/

/-- C3 counterexample: the claim says `mkdir` with `silent=false` on an
existing path fails with an already-exists error, but the upfront existence
check (line 106) returns before any creation attempt, so the call succeeds
with the state unchanged even with `silent=false`. -/
theorem mkdir_nonsilent_existing_ok :
    mkdir flNone lfsNone sDirD "/d" none true false = (sDirD, none) := by decide

/-- C3 (amended): `mkdir` on an already-existing path returns without error
and leaves the state unchanged for **both** values of `silent` (the existence
check precedes the silent logic); consequently calling `mkdir` with
`silent=true` twice in a row, where the first call produced the path, succeeds
both times with identical state. -/
theorem mkdir_existing_noop_and_idempotent (fl : Faults) (lfs : LocalFS)
    (s : FS) (p : String) (perm : Option Nat) (recursive silent : Bool) :
    (fsExists s p = true → mkdir fl lfs s p perm recursive silent = (s, none)) ∧
    (∀ s1, mkdir fl lfs s p perm true true = (s1, none) → fsExists s1 p = true →
      mkdir fl lfs s1 p perm true true = (s1, none)) := by
  constructor
  · intro h
    rw [mkdir.eq_def, if_pos h]
  · intro s1 _ h1
    rw [mkdir.eq_def, if_pos h1]

/-- Witness for C3: both parts applied at a concrete state where `/d` exists,
and a concrete first call that creates `/d/x`. -/
theorem mkdir_existing_noop_and_idempotent_app :
    mkdir flNone lfsNone sDirD "/d" none true true = (sDirD, none) ∧
    mkdir flNone lfsNone [("/d/x", FSNode.dir 493), ("/d", FSNode.dir 493)] "/d/x"
      none true true = ([("/d/x", FSNode.dir 493), ("/d", FSNode.dir 493)], none) :=
  ⟨(mkdir_existing_noop_and_idempotent flNone lfsNone sDirD "/d" none true true).1 (by decide),
   (mkdir_existing_noop_and_idempotent flNone lfsNone sDirD "/d/x" none true true).2
     [("/d/x", FSNode.dir 493), ("/d", FSNode.dir 493)] (by decide) (by decide)⟩

/-! ## C4: what `silent` swallows -/

/-- C4 (code bug): with `silent=true`, `mkdir` swallows **every** creation
failure, not only the already-exists one — the guard
`not silent and not is_file_exists_error(e)` (line 124) can only re-raise
when `silent` is false.  Here creating `/r/x` is denied with a permission
error, yet `mkdir` returns success with the state unchanged; the spec says
such failures are re-raised even when `silent=true`.  `remove`, by contrast,
behaves as the claim says: a denied removal is re-raised even with
`silent=true` (second conjunct). -/
theorem mkdir_silent_swallows_permission :
    mkdir flDenyCreate lfsNone sRoot "/r/x" none true true = (sRoot, none) ∧
    remove flDenyRemove sRoot "/r/f" true true = (sRoot, some Err.permission) := by
  constructor <;> decide

/-! ## C5: temp-name generation freshness -/

/-- C5 counterexample: with `is_tmp` given as a string extension, the
existence check of the retry loop (line 274) inspects the extensionless
candidate, and the extension is appended afterwards (line 281) — so the
returned path can collide with an existing name, contradicting the claim for
the extension case. -/
theorem genTmpPath_ext_collision :
    genTmpPath sExtCollide "/t" (TmpFlag.ext "txt") [5] =
      some "/t/luigi-tmp-000000005.txt" ∧
    fsExists sExtCollide "/t/luigi-tmp-000000005.txt" = true := by
  constructor <;> decide

/-- C5 (amended): the retry loop never accepts a candidate that exists — with
boolean `is_tmp` the returned path itself never exists in the state, for any
number of forced collisions; with a string-extension `is_tmp` the freshness
guarantee applies to the extensionless candidate, the returned path being that
candidate with the extension appended (and it may itself collide). -/
theorem genTmpPath_candidate_fresh :
    (∀ (s : FS) (tmpDir : String) (rng : List Nat) (p : String),
      genTmpPath s tmpDir TmpFlag.bool rng = some p → fsExists s p = false) ∧
    (∀ (s : FS) (tmpDir e : String) (rng : List Nat) (p : String),
      genTmpPath s tmpDir (TmpFlag.ext e) rng = some p →
      ∃ r, r ∈ rng ∧ p = pathJoin tmpDir (tmpBasename r) ++ normExt e ∧
        fsExists s (pathJoin tmpDir (tmpBasename r)) = false) := by
  constructor
  · intro s tmpDir rng
    induction rng with
    | nil => intro p h; exact absurd h (by simp [genTmpPath])
    | cons r rs ih =>
        intro p h
        rw [genTmpPath] at h
        by_cases he : fsExists s (pathJoin tmpDir (tmpBasename r)) = true
        · rw [if_pos he] at h
          exact ih p h
        · rw [if_neg he] at h
          simp only [Option.some.injEq] at h
          subst h
          exact Bool.eq_false_iff.mpr (fun hc => he hc)
  · intro s tmpDir e rng
    induction rng with
    | nil => intro p h; exact absurd h (by simp [genTmpPath])
    | cons r rs ih =>
        intro p h
        rw [genTmpPath] at h
        by_cases he : fsExists s (pathJoin tmpDir (tmpBasename r)) = true
        · rw [if_pos he] at h
          obtain ⟨r0, hr0, hp, hf⟩ := ih p h
          exact ⟨r0, List.mem_cons_of_mem _ hr0, hp, hf⟩
        · rw [if_neg he] at h
          simp only [Option.some.injEq] at h
          exact ⟨r, List.mem_cons_self _ _, h.symm,
            Bool.eq_false_iff.mpr (fun hc => he hc)⟩

/-- Witness for C5: after three forced collisions in the pre-populated temp
root, the fourth draw is accepted and indeed does not exist there. -/
theorem genTmpPath_candidate_fresh_app :
    fsExists sCollide "/t/luigi-tmp-000000004" = false :=
  genTmpPath_candidate_fresh.1 sCollide "/t" [1, 2, 3, 4]
    "/t/luigi-tmp-000000004" (by decide)

/-! ## Operation-level lemmas -/

theorem listPrefixEq_refl : ∀ l : List String, listPrefixEq l l = true := by
  intro l
  induction l with
  | nil => rfl
  | cons a t ih => simp [listPrefixEq, ih]

theorem pathPrefixOf_refl (p : String) : pathPrefixOf p p = true :=
  listPrefixEq_refl _

theorem existsFS_false_iff (s : FS) (p : String) :
    existsFS s p = false ↔ lookupFS s p = none := by
  cases h : lookupFS s p <;> simp [existsFS, h]

theorem existsFS_true_iff (s : FS) (p : String) :
    existsFS s p = true ↔ ∃ n, lookupFS s p = some n := by
  cases h : lookupFS s p <;> simp [existsFS, h]

theorem existsFS_of_isdir (s : FS) (p : String) (h : isdirFS s p = true) :
    existsFS s p = true := by
  rw [isdirFS] at h
  cases hl : lookupFS s p with
  | none => rw [hl] at h; exact absurd h (by simp)
  | some n => simp [existsFS, hl]

theorem osChmod_lookup_ne (fl : Faults) (s : FS) (p : String) (pm : Nat)
    (q : String) (h : ¬ q = p) :
    lookupFS (osChmod fl s p pm).1 q = lookupFS s q := by
  rw [osChmod.eq_def]
  cases hl : lookupFS s p with
  | none => rfl
  | some nd =>
      cases nd with
      | file c x =>
          by_cases hd : p ∈ fl.chmodDenied
          · simp [hd]
          · simp [hd, lookupFS_setFS_ne s p q _ h]
      | dir x =>
          by_cases hd : p ∈ fl.chmodDenied
          · simp [hd]
          · simp [hd, lookupFS_setFS_ne s p q _ h]

theorem chmod_lookup_ne (fl : Faults) (s : FS) (p : String) (perm : Option Nat)
    (silent : Bool) (q : String) (h : ¬ q = unscheme p) :
    lookupFS (chmod fl s p perm silent).1 q = lookupFS s q := by
  cases perm with
  | none => rfl
  | some pm =>
      rw [chmod.eq_def]
      by_cases hc : ¬ silent = true ∨ fsExists s p = true
      · simp only [if_pos hc]
        exact osChmod_lookup_ne fl s (unscheme p) pm q h
      · simp only [if_neg hc]

theorem shutilCopy2_lookup_ne (fl : Faults) (s : FS) (src dst : String)
    (q : String) (h : ¬ q = dst) :
    lookupFS (shutilCopy2 fl s src dst).1 q = lookupFS s q := by
  rw [shutilCopy2.eq_def]
  cases hl : lookupFS s src with
  | none => rfl
  | some nd =>
      cases nd with
      | dir x => rfl
      | file c pm =>
          by_cases hp : ¬ (dirname dst = "" ∨ dirname dst = "/" ∨ isdirFS s (dirname dst) = true)
          · simp [hp]
          · by_cases hd : dst ∈ fl.createDenied
            · simp [hp, hd]
            · simp [hp, hd, lookupFS_setFS_ne _ dst q _ h]

theorem shutilMove_lookup_ne (fl : Faults) (s : FS) (src dst : String)
    (q : String) (h1 : ¬ q = dst) (h2 : ¬ q = src) :
    lookupFS (shutilMove fl s src dst).1 q = lookupFS s q := by
  rw [shutilMove.eq_def]
  cases hl : lookupFS s src with
  | none => rfl
  | some nd =>
      by_cases hp : ¬ (dirname dst = "" ∨ dirname dst = "/" ∨ isdirFS s (dirname dst) = true)
      · simp [hp]
      · by_cases hd : dst ∈ fl.createDenied ∨ src ∈ fl.removeDenied
        · simp [hp, hd]
        · simp only [if_neg hp, if_neg hd]
          rw [lookupFS_setFS_ne _ dst q _ h1, lookupFS_delFS_ne s src q h2]

/-! ## Destination resolution lemmas -/

theorem prepare_isdir (fl : Faults) (lfs : LocalFS) (s : FS) (src dst : String)
    (perm : Option Nat) (hd : fsIsdir s (unscheme dst) = true) :
    prepare_dst_dir fl lfs s src dst perm =
      ((s, none), pathJoin (unscheme dst) (basename src)) := by
  rw [prepare_dst_dir]
  rw [if_pos hd]

theorem prepare_skip (fl : Faults) (lfs : LocalFS) (s : FS) (src dst : String)
    (perm : Option Nat) (hnd : fsIsdir s (unscheme dst) = false)
    (hsk : dirname (unscheme dst) = "" ∨ fsExists s (dirname (unscheme dst)) = true) :
    prepare_dst_dir fl lfs s src dst perm = ((s, none), unscheme dst) := by
  rcases hsk with h | h <;> simp [prepare_dst_dir, hnd, h]

theorem prepare_mkdir (fl : Faults) (lfs : LocalFS) (s : FS) (src dst : String)
    (perm : Option Nat) (hnd : fsIsdir s (unscheme dst) = false)
    (hdd : ¬ dirname (unscheme dst) = "")
    (hmiss : fsExists s (dirname (unscheme dst)) = false) :
    prepare_dst_dir fl lfs s src dst perm =
      (mkdir fl lfs s (dirname (unscheme dst)) perm true true, unscheme dst) := by
  simp [prepare_dst_dir, hnd, hdd, hmiss]

theorem copy_eq_of_file (fl : Faults) (lfs : LocalFS) (s : FS) (src dst : String)
    (perm dirPerm : Option Nat) (c : String) (pm : Nat)
    (hnd : fsIsdir s (unscheme dst) = false)
    (hud : unscheme (dirname (unscheme dst)) = dirname (unscheme dst))
    (hpar : dirname (unscheme dst) = "" ∨ isdirFS s (dirname (unscheme dst)) = true)
    (hsrc : lookupFS s (unscheme src) = some (.file c pm))
    (hcd : unscheme dst ∉ fl.createDenied) :
    copy fl lfs s src dst perm dirPerm =
      (chmod fl (setFS s (unscheme dst) (.file c pm)) (unscheme dst)
        (resolvePerm perm lfs.default_file_perm) true, unscheme dst) := by
  have hplift : dirname (unscheme dst) = "" ∨ fsExists s (dirname (unscheme dst)) = true := by
    rcases hpar with h | h
    · exact Or.inl h
    · refine Or.inr ?_
      rw [fsExists, hud]
      exact existsFS_of_isdir _ _ h
  have hcp : shutilCopy2 fl s (unscheme src) (unscheme dst) =
      (setFS s (unscheme dst) (.file c pm), none) := by
    simp only [shutilCopy2, hsrc]
    rw [if_neg (by
      rcases hpar with h | h
      · exact fun hc => hc (Or.inl h)
      · exact fun hc => hc (Or.inr (Or.inr h)))]
    rw [if_neg hcd]
  simp only [copy, prepare_skip fl lfs s (unscheme src) dst dirPerm hnd hplift, hcp]

theorem move_eq_of_node (fl : Faults) (lfs : LocalFS) (s : FS) (src dst : String)
    (perm dirPerm : Option Nat) (n : FSNode)
    (hnd : fsIsdir s (unscheme dst) = false)
    (hud : unscheme (dirname (unscheme dst)) = dirname (unscheme dst))
    (hpar : dirname (unscheme dst) = "" ∨ isdirFS s (dirname (unscheme dst)) = true)
    (hsrc : lookupFS s (unscheme src) = some n)
    (hcd : ¬ (unscheme dst ∈ fl.createDenied ∨ unscheme src ∈ fl.removeDenied)) :
    move fl lfs s src dst perm dirPerm =
      (chmod fl (setFS (delFS s (unscheme src)) (unscheme dst) n) (unscheme dst)
        (resolvePerm perm lfs.default_file_perm) true, unscheme dst) := by
  have hplift : dirname (unscheme dst) = "" ∨ fsExists s (dirname (unscheme dst)) = true := by
    rcases hpar with h | h
    · exact Or.inl h
    · refine Or.inr ?_
      rw [fsExists, hud]
      exact existsFS_of_isdir _ _ h
  have hmv : shutilMove fl s (unscheme src) (unscheme dst) =
      (setFS (delFS s (unscheme src)) (unscheme dst) n, none) := by
    simp only [shutilMove, hsrc]
    rw [if_neg (by
      rcases hpar with h | h
      · exact fun hc => hc (Or.inl h)
      · exact fun hc => hc (Or.inr (Or.inr h)))]
    rw [if_neg hcd]
  simp only [move, prepare_skip fl lfs s (unscheme src) dst dirPerm hnd hplift, hmv]

/-! ## createDirs / mkdir creation lemmas -/

theorem createDirs_preserves_some (fl : Faults) (pm : Nat) :
    ∀ (l : List String) (s : FS) (q : String) (n : FSNode),
      lookupFS s q = some n → lookupFS (createDirs fl s pm l).1 q = some n := by
  intro l
  induction l with
  | nil => intro s q n h; exact h
  | cons a t ih =>
      intro s q n h
      rw [createDirs]
      cases hl : lookupFS s a with
      | none =>
          by_cases hd : a ∈ fl.createDenied
          · simp only [if_pos hd]
            exact h
          · simp only [if_neg hd]
            have hq : ¬ q = a := by
              intro e
              rw [e, hl] at h
              cases h
            exact ih (setFS s a (.dir pm)) q n
              (by rw [lookupFS_setFS_ne s a q _ hq]; exact h)
      | some nd =>
          cases nd with
          | dir x => exact ih s q n h
          | file c x => exact h

theorem createDirs_success (fl : Faults) (pm : Nat) :
    ∀ (l : List String) (s : FS),
      (∀ a ∈ l, lookupFS s a = none → a ∉ fl.createDenied) →
      (∀ a ∈ l, isfileFS s a = false) →
      (createDirs fl s pm l).2 = none ∧
      ∀ a ∈ l,
        (lookupFS s a = none → lookupFS (createDirs fl s pm l).1 a = some (.dir pm)) ∧
        ∃ x, lookupFS (createDirs fl s pm l).1 a = some (.dir x) := by
  intro l
  induction l with
  | nil => intro s _ _; exact ⟨rfl, by simp⟩
  | cons a t ih =>
      intro s h1 h2
      cases hl : lookupFS s a with
      | some nd =>
          cases nd with
          | file c x =>
              have := h2 a (List.mem_cons_self a t)
              rw [isfileFS, hl] at this
              exact absurd this (by simp)
          | dir x =>
              have step : createDirs fl s pm (a :: t) = createDirs fl s pm t := by
                rw [createDirs, hl]
              obtain ⟨he, hall⟩ := ih s
                (fun b hb => h1 b (List.mem_cons_of_mem a hb))
                (fun b hb => h2 b (List.mem_cons_of_mem a hb))
              refine ⟨by rw [step]; exact he, ?_⟩
              intro b hb
              rcases List.mem_cons.mp hb with rfl | hbt
              · constructor
                · intro hc
                  rw [hc] at hl
                  cases hl
                · exact ⟨x, by rw [step]; exact createDirs_preserves_some fl pm t s b _ hl⟩
              · constructor
                · intro hbl
                  rw [step]
                  exact (hall b hbt).1 hbl
                · obtain ⟨x2, hx2⟩ := (hall b hbt).2
                  exact ⟨x2, by rw [step]; exact hx2⟩
      | none =>
          have hd : a ∉ fl.createDenied := h1 a (List.mem_cons_self a t) hl
          have step : createDirs fl s pm (a :: t) =
              createDirs fl (setFS s a (.dir pm)) pm t := by
            rw [createDirs, hl]
            simp only [if_neg hd]
          have hsa : lookupFS (setFS s a (.dir pm)) a = some (.dir pm) :=
            lookupFS_setFS_self s a _
          obtain ⟨he, hall⟩ := ih (setFS s a (.dir pm))
            (fun b hb hbl => by
              by_cases hba : b = a
              · rw [hba, hsa] at hbl; cases hbl
              · rw [lookupFS_setFS_ne s a b _ hba] at hbl
                exact h1 b (List.mem_cons_of_mem a hb) hbl)
            (fun b hb => by
              by_cases hba : b = a
              · rw [hba]
                show isfileFS (setFS s a (FSNode.dir pm)) a = false
                simp only [isfileFS, hsa]
              · rw [isfileFS_of_lookup_eq _ s b (lookupFS_setFS_ne s a b _ hba)]
                exact h2 b (List.mem_cons_of_mem a hb))
          refine ⟨by rw [step]; exact he, ?_⟩
          intro b hb
          rcases List.mem_cons.mp hb with rfl | hbt
          · have hfin : lookupFS (createDirs fl (setFS s b (.dir pm)) pm t).1 b =
                some (.dir pm) :=
              createDirs_preserves_some fl pm t _ b _ hsa
            exact ⟨fun _ => by rw [step]; exact hfin, ⟨pm, by rw [step]; exact hfin⟩⟩
          · by_cases hba : b = a
            · subst hba
              have hfin : lookupFS (createDirs fl (setFS s b (.dir pm)) pm t).1 b =
                  some (.dir pm) :=
                createDirs_preserves_some fl pm t _ b _ hsa
              exact ⟨fun _ => by rw [step]; exact hfin, ⟨pm, by rw [step]; exact hfin⟩⟩
            · constructor
              · intro hbl
                rw [step]
                exact (hall b hbt).1
                  (by rw [lookupFS_setFS_ne s a b _ hba]; exact hbl)
              · obtain ⟨x2, hx2⟩ := (hall b hbt).2
                exact ⟨x2, by rw [step]; exact hx2⟩

theorem mkdir_creates (fl : Faults) (lfs : LocalFS) (s : FS) (p : String)
    (perm : Option Nat)
    (hne : fsExists s p = false)
    (hu : unscheme p = p)
    (hpa : p ∈ ancestorsOf p)
    (h1 : ∀ a ∈ ancestorsOf p, lookupFS s a = none → a ∉ fl.createDenied)
    (h2 : ∀ a ∈ ancestorsOf p, isfileFS s a = false)
    (h3 : p ∉ fl.chmodDenied) :
    (mkdir fl lfs s p perm true true).2 = none ∧
    ∀ a ∈ ancestorsOf p,
      (lookupFS s a = none →
        lookupFS (mkdir fl lfs s p perm true true).1 a =
          some (.dir ((resolvePerm perm lfs.default_directory_perm).getD defaultDirPerm))) ∧
      ∃ x, lookupFS (mkdir fl lfs s p perm true true).1 a = some (.dir x) := by
  have hneu : existsFS s p = false := by rw [fsExists, hu] at hne; exact hne
  obtain ⟨he, hall⟩ := createDirs_success fl
    ((resolvePerm perm lfs.default_directory_perm).getD defaultDirPerm)
    (ancestorsOf p) s h1 h2
  rcases hS : createDirs fl s
      ((resolvePerm perm lfs.default_directory_perm).getD defaultDirPerm)
      (ancestorsOf p) with ⟨s1, e1⟩
  rw [hS] at he hall
  obtain rfl : e1 = none := he
  have hmk : mkdir fl lfs s p perm true true =
      chmod fl s1 p (resolvePerm perm lfs.default_directory_perm) true := by
    simp [mkdir, hne, osMakedirs, hneu, hu, hS]
  cases hperm : resolvePerm perm lfs.default_directory_perm with
  | none =>
      rw [hperm] at hmk hall
      refine ⟨by rw [hmk]; rfl, ?_⟩
      intro a ha
      constructor
      · intro hla
        rw [hmk]
        exact (hall a ha).1 hla
      · obtain ⟨x, hx⟩ := (hall a ha).2
        exact ⟨x, by rw [hmk]; exact hx⟩
  | some z =>
      rw [hperm] at hmk
      have hpmz : (resolvePerm perm lfs.default_directory_perm).getD defaultDirPerm = z := by
        rw [hperm]
        rfl
      rw [hpmz] at hall
      obtain ⟨y, hy⟩ := (hall p hpa).2
      have hex : fsExists s1 p = true := by
        rw [fsExists, hu, existsFS_true_iff]
        exact ⟨_, hy⟩
      have hchm : chmod fl s1 p (some z) true = (setFS s1 p (.dir z), none) := by
        simp only [chmod]
        rw [if_pos (Or.inr hex)]
        simp only [osChmod, hu, hy]
        rw [if_neg h3]
      rw [hchm] at hmk
      refine ⟨by rw [hmk], ?_⟩
      intro a ha
      by_cases hap : a = p
      · subst hap
        constructor
        · intro hla
          rw [hmk]
          exact lookupFS_setFS_self _ _ _
        · exact ⟨z, by rw [hmk]; exact lookupFS_setFS_self _ _ _⟩
      · constructor
        · intro hla
          rw [hmk, lookupFS_setFS_ne _ p a _ hap]
          exact (hall a ha).1 hla
        · obtain ⟨x, hx⟩ := (hall a ha).2
          exact ⟨x, by rw [hmk, lookupFS_setFS_ne _ p a _ hap]; exact hx⟩

theorem mkdir_preserves_some (fl : Faults) (lfs : LocalFS) (s : FS) (p : String)
    (perm : Option Nat) (hne : fsExists s p = false) (hu : unscheme p = p)
    (q : String) (n : FSNode) (hq : lookupFS s q = some n) :
    lookupFS (mkdir fl lfs s p perm true true).1 q = some n := by
  have hqp : ¬ q = p := by
    intro e
    rw [fsExists, hu, existsFS_false_iff] at hne
    rw [e, hne] at hq
    cases hq
  have hneu : existsFS s p = false := by rw [fsExists, hu] at hne; exact hne
  have hpre : lookupFS (createDirs fl s
      ((resolvePerm perm lfs.default_directory_perm).getD defaultDirPerm)
      (ancestorsOf p)).1 q = some n :=
    createDirs_preserves_some fl _ (ancestorsOf p) s q n hq
  rcases hcr : createDirs fl s
      ((resolvePerm perm lfs.default_directory_perm).getD defaultDirPerm)
      (ancestorsOf p) with ⟨s1, e1⟩
  rw [hcr] at hpre
  simp only at hpre
  have hch : lookupFS (chmod fl s1 p (resolvePerm perm lfs.default_directory_perm) true).1 q
      = some n := by
    rw [chmod_lookup_ne fl s1 p _ true q (by rw [hu]; exact hqp)]
    exact hpre
  cases e1 with
  | none =>
      have hmk : mkdir fl lfs s p perm true true =
          chmod fl s1 p (resolvePerm perm lfs.default_directory_perm) true := by
        simp [mkdir, hne, osMakedirs, hneu, hu, hcr]
      rw [hmk]
      exact hch
  | some e =>
      have hmk : mkdir fl lfs s p perm true true =
          chmod fl s1 p (resolvePerm perm lfs.default_directory_perm) true := by
        simp [mkdir, hne, osMakedirs, hneu, hu, hcr, is_file_exists_error]
      rw [hmk]
      exact hch

/-! ## C10: perm=None is a frame no-op -/

/-- C10: `chmod` with `perm=None` performs no filesystem action at all (first
conjunct: for every fault set, state, path and silent flag the state is
returned unchanged with no error); consequently `copy` and `move` invoked with
`perm=None` on a filesystem whose `default_file_perm` is `None` leave the
destination node exactly as the underlying byte-copy (`shutil.copy2`) or
relocation (`shutil.move`) produced it — the destination carries the source's
content and permission bits, untouched by any chmod (second and third
conjuncts, shown for a destination whose parent directory exists). -/
theorem chmod_none_noop_copy_move_keep_perm :
    (∀ (fl : Faults) (s : FS) (p : String) (silent : Bool),
      chmod fl s p none silent = (s, none)) ∧
    (∀ (fl : Faults) (lfs : LocalFS) (s : FS) (src dst : String) (dirPerm : Option Nat)
      (c : String) (pm : Nat),
      lfs.default_file_perm = none →
      fsIsdir s (unscheme dst) = false →
      unscheme (dirname (unscheme dst)) = dirname (unscheme dst) →
      (dirname (unscheme dst) = "" ∨ isdirFS s (dirname (unscheme dst)) = true) →
      lookupFS s (unscheme src) = some (.file c pm) →
      unscheme dst ∉ fl.createDenied →
      copy fl lfs s src dst none dirPerm =
        ((setFS s (unscheme dst) (.file c pm), none), unscheme dst)) ∧
    (∀ (fl : Faults) (lfs : LocalFS) (s : FS) (src dst : String) (dirPerm : Option Nat)
      (n : FSNode),
      lfs.default_file_perm = none →
      fsIsdir s (unscheme dst) = false →
      unscheme (dirname (unscheme dst)) = dirname (unscheme dst) →
      (dirname (unscheme dst) = "" ∨ isdirFS s (dirname (unscheme dst)) = true) →
      lookupFS s (unscheme src) = some n →
      ¬ (unscheme dst ∈ fl.createDenied ∨ unscheme src ∈ fl.removeDenied) →
      move fl lfs s src dst none dirPerm =
        ((setFS (delFS s (unscheme src)) (unscheme dst) n, none), unscheme dst)) := by
  refine ⟨fun fl s p silent => rfl, ?_, ?_⟩
  · intro fl lfs s src dst dirPerm c pm hdf hnd hud hpar hsrc hcd
    rw [copy_eq_of_file fl lfs s src dst none dirPerm c pm hnd hud hpar hsrc hcd]
    have h2 : resolvePerm none lfs.default_file_perm = none := hdf
    rw [h2]
    rfl
  · intro fl lfs s src dst dirPerm n hdf hnd hud hpar hsrc hcd
    rw [move_eq_of_node fl lfs s src dst none dirPerm n hnd hud hpar hsrc hcd]
    have h2 : resolvePerm none lfs.default_file_perm = none := hdf
    rw [h2]
    rfl

/-- Witness for C10: the chmod no-op and a concrete copy whose destination
keeps the source's permission bits. -/
theorem chmod_none_noop_copy_move_keep_perm_app :
    chmod flNone sRoot "/r/f" none true = (sRoot, none) ∧
    copy flNone lfsNone sRoot "/r/f" "/r/g" none none =
      ((setFS sRoot "/r/g" (FSNode.file "keep" 420), none), "/r/g") :=
  ⟨chmod_none_noop_copy_move_keep_perm.1 flNone sRoot "/r/f" true,
   chmod_none_noop_copy_move_keep_perm.2.1 flNone lfsNone sRoot "/r/f" "/r/g"
     none "keep" 420 rfl (by decide) (by decide) (by decide) (by decide) (by decide)⟩

/-! ## C8: copy destination resolution -/

/-- C8: destination resolution of `copy` (via `_prepare_dst_dir`).  First
conjunct: when `dst` is an existing directory the final destination path is
`dst` joined with the basename of `src`, and the source's entry is unchanged
whatever the outcome of the copy.  Second conjunct: when `dst` is not an
existing directory and its parent directory is missing, the missing ancestor
directories of the parent are created — the newly created ones with the
permission resolved from `dir_perm` and the configured directory default —
and they are present in the final state of the copy. -/
theorem copy_dst_dir_resolution :
    (∀ (fl : Faults) (lfs : LocalFS) (s : FS) (src dst : String) (perm dirPerm : Option Nat),
      fsIsdir s (unscheme dst) = true →
      unscheme (pathJoin (unscheme dst) (basename (unscheme src))) =
        pathJoin (unscheme dst) (basename (unscheme src)) →
      ¬ pathJoin (unscheme dst) (basename (unscheme src)) = unscheme src →
      (copy fl lfs s src dst perm dirPerm).2 =
        pathJoin (unscheme dst) (basename (unscheme src)) ∧
      lookupFS (copy fl lfs s src dst perm dirPerm).1.1 (unscheme src) =
        lookupFS s (unscheme src)) ∧
    (∀ (fl : Faults) (lfs : LocalFS) (s : FS) (src dst : String) (perm dirPerm : Option Nat),
      unscheme dst = dst →
      unscheme (dirname dst) = dirname dst →
      fsIsdir s dst = false →
      ¬ dirname dst = "" →
      fsExists s (dirname dst) = false →
      dirname dst ∈ ancestorsOf (dirname dst) →
      dst ∉ ancestorsOf (dirname dst) →
      (∀ a ∈ ancestorsOf (dirname dst), lookupFS s a = none → a ∉ fl.createDenied) →
      (∀ a ∈ ancestorsOf (dirname dst), isfileFS s a = false) →
      dirname dst ∉ fl.chmodDenied →
      (copy fl lfs s src dst perm dirPerm).2 = dst ∧
      ∀ a ∈ ancestorsOf (dirname dst),
        (∃ x, lookupFS (copy fl lfs s src dst perm dirPerm).1.1 a = some (.dir x)) ∧
        (lookupFS s a = none →
          lookupFS (copy fl lfs s src dst perm dirPerm).1.1 a =
            some (.dir ((resolvePerm dirPerm lfs.default_directory_perm).getD defaultDirPerm)))) := by
  constructor
  · intro fl lfs s src dst perm dirPerm hdd hud hne
    have hpre := prepare_isdir fl lfs s (unscheme src) dst dirPerm hdd
    rcases hc : shutilCopy2 fl s (unscheme src)
        (pathJoin (unscheme dst) (basename (unscheme src))) with ⟨s2, e2⟩
    have hs2 : lookupFS s2 (unscheme src) = lookupFS s (unscheme src) := by
      have h0 := shutilCopy2_lookup_ne fl s (unscheme src)
        (pathJoin (unscheme dst) (basename (unscheme src))) (unscheme src)
        (fun e => hne e.symm)
      rw [hc] at h0
      exact h0
    cases e2 with
    | some e =>
        constructor
        · simp only [copy, hpre, hc]
        · simp only [copy, hpre, hc]
          exact hs2
    | none =>
        constructor
        · simp only [copy, hpre, hc]
        · simp only [copy, hpre, hc]
          rw [chmod_lookup_ne fl s2 (pathJoin (unscheme dst) (basename (unscheme src)))
            _ true (unscheme src) (by rw [hud]; exact fun e => hne e.symm)]
          exact hs2
  · intro fl lfs s src dst perm dirPerm hu hu2 hnd hdd hmiss hpa hna h1 h2 h3
    have hpre := prepare_mkdir fl lfs s (unscheme src) dst dirPerm
      (by rw [hu]; exact hnd) (by rw [hu]; exact hdd) (by rw [hu]; exact hmiss)
    rw [hu] at hpre
    have hmk := mkdir_creates fl lfs s (dirname dst) dirPerm hmiss hu2 hpa h1 h2 h3
    rcases hmd : mkdir fl lfs s (dirname dst) dirPerm true true with ⟨s1, e1⟩
    rw [hmd] at hmk hpre
    obtain ⟨he1, hprops⟩ := hmk
    obtain rfl : e1 = none := he1
    rcases hc : shutilCopy2 fl s1 (unscheme src) dst with ⟨s2, e2⟩
    constructor
    · cases e2 with
      | some e => simp only [copy, hpre, hc]
      | none => simp only [copy, hpre, hc]
    · intro a ha
      have hadst : ¬ a = dst := by
        intro e
        rw [e] at ha
        exact hna ha
      have hs2a : lookupFS s2 a = lookupFS s1 a := by
        have h0 := shutilCopy2_lookup_ne fl s1 (unscheme src) dst a hadst
        rw [hc] at h0
        exact h0
      have hfin : lookupFS (copy fl lfs s src dst perm dirPerm).1.1 a = lookupFS s1 a := by
        cases e2 with
        | some e =>
            simp only [copy, hpre, hc]
            exact hs2a
        | none =>
            simp only [copy, hpre, hc]
            rw [chmod_lookup_ne fl s2 dst _ true a (by rw [hu]; exact hadst)]
            exact hs2a
      constructor
      · obtain ⟨x, hx⟩ := (hprops a ha).2
        exact ⟨x, by rw [hfin]; exact hx⟩
      · intro hla
        rw [hfin]
        exact (hprops a ha).1 hla

/-- Witness for C8: copying into the existing directory `/t/a` resolves to
`/t/a/b`, and copying to `/a/b/g` over the missing parent `/a/b` creates it
as a directory. -/
theorem copy_dst_dir_resolution_app :
    (copy flNone lfsNone fsTree "/t/b" "/t/a" none none).2 = "/t/a/b" ∧
    lookupFS (copy flNone lfsNone sRoot "/r/f" "/a/b/g" none none).1.1 "/a/b" =
      some (FSNode.dir 493) := by
  constructor
  · exact (copy_dst_dir_resolution.1 flNone lfsNone fsTree "/t/b" "/t/a" none none
      (by decide) (by decide) (by decide)).1
  · have h := (copy_dst_dir_resolution.2 flNone lfsNone sRoot "/r/f" "/a/b/g" none none
      rfl rfl (by decide) (by decide) (by decide) (by decide) (by decide)
      (by decide) (by decide) (by decide)).2 "/a/b" (by decide)
    exact h.2 (by decide)

/-! ## C7: walk -/

theorem pairwiseOfForall {α : Type} (R : α → α → Prop) (h : ∀ a b, R a b) :
    ∀ l : List α, l.Pairwise R := by
  intro l
  induction l with
  | nil => exact .nil
  | cons a t ih => exact .cons (fun b _ => h a b) ih

theorem walkAux_depth_le (s : FS) (maxD : Int) :
    ∀ (fuel : Nat) (q : List (String × Nat)) (y : WalkEntry),
      y ∈ walkAux s maxD q fuel → 0 ≤ maxD → (y.2.2.2 : Int) ≤ maxD := by
  intro fuel
  induction fuel with
  | zero =>
      intro q y hy
      simp [walkAux] at hy
  | succ fuel ih =>
      intro q y hy hnn
      rcases q with _ | ⟨⟨d, depth⟩, rest⟩
      · simp [walkAux] at hy
      · rw [walkAux] at hy
        by_cases hg : 0 ≤ maxD ∧ maxD < (depth : Int)
        · rw [if_pos hg] at hy
          exact ih rest y hy hnn
        · rw [if_neg hg] at hy
          rcases List.mem_cons.mp hy with rfl | hy2
          · have h2 : ¬ maxD < ((depth : Nat) : Int) := fun hlt => hg ⟨hnn, hlt⟩
            exact not_lt.mp h2
          · exact ih _ y hy2 hnn

theorem walkAux_neg_eq_nb (s : FS) (maxD : Int) (hneg : maxD < 0) :
    ∀ (fuel : Nat) (q : List (String × Nat)),
      walkAux s maxD q fuel = walkAuxNB s q fuel := by
  intro fuel
  induction fuel with
  | zero => intro q; simp [walkAux, walkAuxNB]
  | succ fuel ih =>
      intro q
      rcases q with _ | ⟨⟨d, depth⟩, rest⟩
      · simp [walkAux, walkAuxNB]
      · rw [walkAux, walkAuxNB]
        rw [if_neg (by rintro ⟨h1, _⟩; omega)]
        simp only [ih]

theorem walkAux_lb (s : FS) (maxD : Int) :
    ∀ (fuel : Nat) (q : List (String × Nat)) (c : Nat),
      (∀ x ∈ q, c ≤ x.2) →
      ∀ y ∈ walkAux s maxD q fuel, c ≤ y.2.2.2 := by
  intro fuel
  induction fuel with
  | zero =>
      intro q c _ y hy
      simp [walkAux] at hy
  | succ fuel ih =>
      intro q c hc y hy
      rcases q with _ | ⟨⟨d, depth⟩, rest⟩
      · simp [walkAux] at hy
      · rw [walkAux] at hy
        by_cases hg : 0 ≤ maxD ∧ maxD < (depth : Int)
        · rw [if_pos hg] at hy
          exact ih rest c (fun x hx => hc x (List.mem_cons_of_mem _ hx)) y hy
        · rw [if_neg hg] at hy
          rcases List.mem_cons.mp hy with rfl | hy2
          · exact hc _ (List.mem_cons_self _ _)
          · refine ih _ c ?_ y hy2
            intro x hx
            rcases List.mem_append.mp hx with hx1 | hx2
            · exact hc x (List.mem_cons_of_mem _ hx1)
            · obtain ⟨e, _, rfl⟩ := List.mem_map.mp hx2
              have : c ≤ depth := hc _ (List.mem_cons_self _ _)
              omega

theorem walkAux_depths_pairwise (s : FS) (maxD : Int) :
    ∀ (fuel : Nat) (q : List (String × Nat)),
      q.Pairwise (fun x z => x.2 ≤ z.2) →
      (∀ x ∈ q, ∀ z ∈ q, x.2 ≤ z.2 + 1) →
      (walkAux s maxD q fuel).Pairwise (fun a b => a.2.2.2 ≤ b.2.2.2) := by
  intro fuel
  induction fuel with
  | zero => intro q _ _; simp [walkAux]
  | succ fuel ih =>
      intro q hq1 hq2
      rcases q with _ | ⟨⟨d, depth⟩, rest⟩
      · simp [walkAux]
      · rw [walkAux]
        obtain ⟨hhead, hrest⟩ := List.pairwise_cons.mp hq1
        by_cases hg : 0 ≤ maxD ∧ maxD < (depth : Int)
        · rw [if_pos hg]
          exact ih rest hrest
            (fun x hx z hz => hq2 x (List.mem_cons_of_mem _ hx) z (List.mem_cons_of_mem _ hz))
        · rw [if_neg hg]
          have hch : ∀ y ∈ (listdir s d |>.filter (fun e => fsIsdir s (pathJoin d e))).map
              (fun e => (pathJoin d e, depth + 1)), y.2 = depth + 1 := by
            intro y hy
            obtain ⟨e, _, rfl⟩ := List.mem_map.mp hy
            rfl
          refine List.Pairwise.cons ?_ ?_
          · intro y hy
            show depth ≤ y.2.2.2
            refine walkAux_lb s maxD fuel _ depth ?_ y hy
            intro x hx
            rcases List.mem_append.mp hx with hx1 | hx2
            · exact hhead x hx1
            · rw [hch x hx2]
              omega
          · refine ih _ ?_ ?_
            · rw [List.pairwise_append]
              refine ⟨hrest, ?_, ?_⟩
              · refine List.pairwise_map.mpr ?_
                refine pairwiseOfForall _ (fun a b => ?_) _
                show depth + 1 ≤ depth + 1
                exact le_rfl
              · intro a ha b hb
                rw [hch b hb]
                exact hq2 a (List.mem_cons_of_mem _ ha) _ (List.mem_cons_self _ _)
            · intro x hx z hz
              rcases List.mem_append.mp hx with hx1 | hx2 <;>
                rcases List.mem_append.mp hz with hz1 | hz2
              · exact hq2 x (List.mem_cons_of_mem _ hx1) z (List.mem_cons_of_mem _ hz1)
              · rw [hch z hz2]
                have := hq2 x (List.mem_cons_of_mem _ hx1) _ (List.mem_cons_self _ _)
                omega
              · rw [hch x hx2]
                have := hhead z hz1
                omega
              · rw [hch x hx2, hch z hz2]
                omega

/-- C7: `walk` traverses breadth-first — the sequence of yielded depths is
non-decreasing, so each level is fully enumerated before the next one begins
(fourth conjunct); the root is yielded first at depth 0 (third conjunct);
`max_depth < 0` means unbounded — the traversal then equals the guard-free
loop (second conjunct); for `max_depth ≥ 0` no yielded entry has a depth
exceeding it (first conjunct); and on the concrete tree of depth 3,
`walk(root, max_depth=1)` yields exactly the root and its immediate children,
never grandchildren (fifth conjunct). -/
theorem walk_bfs_props :
    (∀ (s : FS) (p : String) (maxD : Int) (fuel : Nat) (y : WalkEntry),
      y ∈ walk s p maxD fuel → 0 ≤ maxD → (y.2.2.2 : Int) ≤ maxD) ∧
    (∀ (s : FS) (p : String) (maxD : Int) (fuel : Nat),
      maxD < 0 → walk s p maxD fuel = walkNB s p fuel) ∧
    (∀ (s : FS) (p : String) (maxD : Int) (fuel : Nat),
      ∃ ds fls, (walk s p maxD (fuel + 1)).head? = some (unscheme p, ds, fls, 0)) ∧
    (∀ (s : FS) (p : String) (maxD : Int) (fuel : Nat),
      (walk s p maxD fuel).Pairwise (fun a b => a.2.2.2 ≤ b.2.2.2)) ∧
    walk fsTree "/t" 1 10 = [("/t", ["a"], ["b"], 0), ("/t/a", ["c"], [], 1)] := by
  refine ⟨?_, ?_, ?_, ?_, by decide⟩
  · intro s p maxD fuel y hy hnn
    exact walkAux_depth_le s maxD fuel _ y hy hnn
  · intro s p maxD fuel hneg
    exact walkAux_neg_eq_nb s maxD hneg fuel _
  · intro s p maxD fuel
    rw [walk, walkAux]
    rw [if_neg (by rintro ⟨h1, h2⟩; simp at h2; omega)]
    exact ⟨_, _, rfl⟩
  · intro s p maxD fuel
    refine walkAux_depths_pairwise s maxD fuel _ ?_ ?_
    · exact List.pairwise_singleton _ _
    · intro x hx z hz
      rcases List.mem_singleton.mp hx with rfl
      rcases List.mem_singleton.mp hz with rfl
      omega

/-- Witness for C7: the negative-depth clause applied at a concrete tree, plus
the concrete bounded traversal. -/
theorem walk_bfs_props_app :
    walk fsTree "/t" (-1) 10 = walkNB fsTree "/t" 10 ∧
    walk fsTree "/t" 1 10 = [("/t", ["a"], ["b"], 0), ("/t/a", ["c"], [], 1)] :=
  ⟨walk_bfs_props.2.1 fsTree "/t" (-1) 10 (by decide), walk_bfs_props.2.2.2.2⟩

/-! ## Localize stage lemmas -/

theorem ite_true_bool {α : Type} (a b : α) :
    (if (true : Bool) = true then a else b) = a := rfl

theorem ite_false_bool {α : Type} (a b : α) :
    (if (false : Bool) = true then a else b) = b := rfl

theorem isdirFS_of_lookup_dir (s : FS) (p : String) (x : Nat)
    (h : lookupFS s p = some (.dir x)) : isdirFS s p = true := by
  simp only [isdirFS, h]

theorem isdirFS_false_of_none (s : FS) (p : String)
    (h : lookupFS s p = none) : isdirFS s p = false := by
  simp only [isdirFS, h]

theorem isdirFS_false_of_file (s : FS) (p : String) (c : String) (pm : Nat)
    (h : lookupFS s p = some (.file c pm)) : isdirFS s p = false := by
  simp only [isdirFS, h]

theorem mkTmpTarget_exists (fl : Faults) (lfs : LocalFS) (tmpDirPerm : Option Nat)
    (s : FS) (tmpDir : String) (flag : TmpFlag) (rng : List Nat) (p : String)
    (hex : fsExists s tmpDir = true)
    (hgen : genTmpPath s tmpDir flag rng = some p) :
    mkTmpTarget fl lfs tmpDirPerm s tmpDir flag rng = ((s, none), some p) := by
  simp [mkTmpTarget, hex, hgen]

theorem copyToLocal_lookup_ne (fl : Faults) (lfs : LocalFS) (s : FS)
    (src dst q : String)
    (hut : unscheme dst = dst)
    (hnd : fsIsdir s dst = false)
    (hsk : dirname dst = "" ∨ fsExists s (dirname dst) = true)
    (hq : ¬ q = dst) :
    lookupFS (copyToLocal fl lfs s src dst).1 q = lookupFS s q := by
  have hnd2 : fsIsdir s (unscheme dst) = false := by rw [hut]; exact hnd
  have hsk2 : dirname (unscheme dst) = "" ∨ fsExists s (dirname (unscheme dst)) = true := by
    rw [hut]; exact hsk
  have hpre := prepare_skip fl lfs s (unscheme src) dst none hnd2 hsk2
  rw [hut] at hpre
  rcases hc : shutilCopy2 fl s (unscheme src) dst with ⟨s2, e2⟩
  have hcp : lookupFS s2 q = lookupFS s q := by
    have h0 := shutilCopy2_lookup_ne fl s (unscheme src) dst q hq
    rw [hc] at h0
    exact h0
  cases e2 with
  | some e =>
      simp only [copyToLocal, copy, hpre, hc]
      exact hcp
  | none =>
      simp only [copyToLocal, copy, hpre, hc]
      rw [chmod_lookup_ne fl s2 dst _ true q (by rw [hut]; exact hq)]
      exact hcp

theorem copyToLocal_success (fl : Faults) (lfs : LocalFS) (s : FS)
    (src dst : String) (c : String) (pm : Nat)
    (hut : unscheme dst = dst)
    (hnd : fsIsdir s dst = false)
    (hud : unscheme (dirname dst) = dirname dst)
    (hpard : dirname dst = "" ∨ isdirFS s (dirname dst) = true)
    (hsrc : lookupFS s (unscheme src) = some (.file c pm))
    (hcd : dst ∉ fl.createDenied)
    (hcm : lfs.default_file_perm = none ∨ dst ∉ fl.chmodDenied) :
    (copyToLocal fl lfs s src dst).2 = none ∧
    (∃ pm2, lookupFS (copyToLocal fl lfs s src dst).1 dst = some (.file c pm2)) ∧
    ∀ q, ¬ q = dst → lookupFS (copyToLocal fl lfs s src dst).1 q = lookupFS s q := by
  have hce := copy_eq_of_file fl lfs s src dst none none c pm
    (by rw [hut]; exact hnd) (by rw [hut]; exact hud) (by rw [hut]; exact hpard)
    hsrc (by rw [hut]; exact hcd)
  rw [hut] at hce
  have hrp : resolvePerm none lfs.default_file_perm = lfs.default_file_perm := rfl
  rw [hrp] at hce
  cases hdf : lfs.default_file_perm with
  | none =>
      rw [hdf] at hce
      have hcl : copyToLocal fl lfs s src dst = (setFS s dst (.file c pm), none) := by
        rw [copyToLocal, hce]
        rfl
      rw [hcl]
      refine ⟨rfl, ⟨pm, lookupFS_setFS_self _ _ _⟩, ?_⟩
      intro q hq
      exact lookupFS_setFS_ne _ _ _ _ hq
  | some z =>
      have hcm2 : dst ∉ fl.chmodDenied := by
        rcases hcm with h | h
        · rw [hdf] at h
          cases h
        · exact h
      rw [hdf] at hce
      have hex2 : fsExists (setFS s dst (.file c pm)) dst = true := by
        rw [fsExists, hut, existsFS_true_iff]
        exact ⟨_, lookupFS_setFS_self _ _ _⟩
      have hch : chmod fl (setFS s dst (.file c pm)) dst (some z) true =
          (setFS (setFS s dst (.file c pm)) dst (.file c z), none) := by
        simp only [chmod]
        rw [if_pos (Or.inr hex2)]
        simp only [osChmod, hut, lookupFS_setFS_self]
        rw [if_neg hcm2]
      rw [hch] at hce
      have hcl : copyToLocal fl lfs s src dst =
          (setFS (setFS s dst (.file c pm)) dst (.file c z), none) := by
        rw [copyToLocal, hce]
      rw [hcl]
      refine ⟨rfl, ⟨z, lookupFS_setFS_self _ _ _⟩, ?_⟩
      intro q hq
      rw [lookupFS_setFS_ne _ _ _ _ hq, lookupFS_setFS_ne _ _ _ _ hq]

theorem remove_lookup_preserve (fl : Faults) (s : FS) (p : String)
    (recursive silent : Bool) (q : String)
    (hpf : pathPrefixOf (unscheme p) q = false) :
    lookupFS (remove fl s p recursive silent).1 q = lookupFS s q := by
  have hqu : ¬ q = unscheme p := by
    intro e
    rw [e, pathPrefixOf_refl] at hpf
    cases hpf
  rw [remove]
  by_cases hc : ¬ silent = true ∨ fsExists s (unscheme p) = true
  · rw [if_pos hc]
    by_cases hd : fsIsdir s (unscheme p) = true
    · rw [if_pos hd]
      cases recursive with
      | true =>
          rw [ite_true_bool]
          rw [shutilRmtree.eq_def]
          cases hl : lookupFS s (unscheme p) with
          | none => rfl
          | some nd =>
              cases nd with
              | file c x => rfl
              | dir x =>
                  by_cases hrm : unscheme p ∈ fl.removeDenied
                  · rw [if_pos hrm]
                  · rw [if_neg hrm]
                    exact lookupFS_filter_keep _ q (fun n => by simp [hpf]) s
      | false =>
          rw [ite_false_bool]
          rw [osRmdir.eq_def]
          cases hl : lookupFS s (unscheme p) with
          | none => rfl
          | some nd =>
              cases nd with
              | file c x => rfl
              | dir x =>
                  by_cases hne2 : s.any (fun kv => pathPrefixOf (unscheme p) kv.1 ∧ ¬ kv.1 = unscheme p) = true
                  · rw [if_pos hne2]
                  · rw [if_neg hne2]
                    by_cases hrm : unscheme p ∈ fl.removeDenied
                    · rw [if_pos hrm]
                    · rw [if_neg hrm]
                      exact lookupFS_delFS_ne s _ q hqu
    · rw [if_neg hd]
      rw [osRemoveFile.eq_def]
      cases hl : lookupFS s (unscheme p) with
      | none => rfl
      | some nd =>
          cases nd with
          | dir x => rfl
          | file c x =>
              by_cases hrm : unscheme p ∈ fl.removeDenied
              · rw [if_pos hrm]
              · rw [if_neg hrm]
                exact lookupFS_delFS_ne s _ q hqu
  · rw [if_neg hc]

theorem lookup_dir_of_isdirFS (s : FS) (p : String) (h : isdirFS s p = true) :
    ∃ x, lookupFS s p = some (.dir x) := by
  rw [isdirFS.eq_def] at h
  cases hl : lookupFS s p with
  | none => rw [hl] at h; simp at h
  | some nd =>
      cases nd with
      | file c pm => rw [hl] at h; simp at h
      | dir x => exact ⟨x, rfl⟩

theorem targetRemove_kills (fl : Faults) (s : FS) (p : String)
    (hu : unscheme p = p) (hrm : p ∉ fl.removeDenied) :
    lookupFS (targetRemove fl s p).1 p = none := by
  rw [targetRemove, remove, hu]
  by_cases hc : ¬ true = true ∨ fsExists s p = true
  · rw [if_pos hc]
    have hex2 : existsFS s p = true := by
      rcases hc with h | h
      · exact absurd rfl h
      · rw [fsExists, hu] at h
        exact h
    by_cases hd : fsIsdir s p = true
    · rw [if_pos hd]
      rw [ite_true_bool]
      obtain ⟨x, hl⟩ := lookup_dir_of_isdirFS s p (by rw [fsIsdir, hu] at hd; exact hd)
      rw [shutilRmtree.eq_def, hl]
      simp only [if_neg hrm]
      exact lookupFS_filter_drop _ p (fun n => by simp [pathPrefixOf_refl]) s
    · rw [if_neg hd]
      rw [existsFS_true_iff] at hex2
      obtain ⟨nd, hl⟩ := hex2
      cases nd with
      | dir x =>
          exfalso
          apply hd
          rw [fsIsdir, hu]
          exact isdirFS_of_lookup_dir s p x hl
      | file c x =>
          rw [osRemoveFile.eq_def, hl]
          simp only [if_neg hrm]
          exact lookupFS_delFS_self s p
  · rw [if_neg hc]
    have h2 : fsExists s p = false := by
      cases hfe : fsExists s p with
      | false => rfl
      | true => exact absurd (Or.inr hfe) hc
    rw [fsExists, hu] at h2
    exact (existsFS_false_iff s p).mp h2

theorem targetRemove_absent (fl : Faults) (s : FS) (p : String)
    (hu : unscheme p = p) (habs : lookupFS s p = none) :
    targetRemove fl s p = (s, none) := by
  rw [targetRemove, remove, hu]
  rw [if_neg]
  rintro (h | h)
  · exact h rfl
  · rw [fsExists, hu] at h
    rw [existsFS_true_iff] at h
    obtain ⟨n, hn⟩ := h
    rw [habs] at hn
    cases hn

theorem mode_not_r_is_tmp (mode : Mode) (hmode : ¬ mode = Mode.r) :
    decide (mode = Mode.w ∨ mode = Mode.a) = true := by
  cases mode with
  | r => exact absurd rfl hmode
  | w => rfl
  | a => rfl

/-! ## C1: a write/append localize session changes the target only by the
final move -/

/-- C1: within a write- or append-mode localize session with temp staging, the
real target's path is modified only by the single final move of the staged
temporary target.  Whenever the session performs no move — because the
caller's block raises (first conjunct), or because the block leaves no temp
target behind so the move is skipped with a warning (second conjunct) — the
entry at the real target's path afterwards is exactly what it was before the
session began (old content, if any, survives); in the raising case the
exception propagates out of the session.  The caller's block is arbitrary,
assumed only to stage its work through the yielded temp path instead of
writing the real target's path directly. -/
theorem localize_write_preserves_target
    (fl : Faults) (lfs : LocalFS) (tmpDirPerm : Option Nat) (selfPath : String)
    (s : FS) (mode : Mode) (perm dirPerm : Option Nat) (tmpDir : String)
    (rng : List Nat) (body : Body) (tmpPath : String) (dp : Nat)
    (hmode : ¬ mode = Mode.r)
    (hroot : lookupFS s tmpDir = some (FSNode.dir dp))
    (htu : unscheme tmpDir = tmpDir)
    (hut : unscheme tmpPath = tmpPath)
    (hgen : genTmpPath s tmpDir (tmpFlagOf selfPath) rng = some tmpPath)
    (hfresh : lookupFS s tmpPath = none)
    (hdt : dirname tmpPath = tmpDir)
    (hne : ¬ tmpPath = selfPath)
    (hpre : pathPrefixOf tmpPath selfPath = false)
    (hbodyP : ∀ p t, lookupFS (body p t).1 selfPath = lookupFS t selfPath) :
    ((∀ p t, ((body p t).2).isSome = true) →
      lookupFS (localize fl lfs tmpDirPerm selfPath s mode perm dirPerm tmpDir rng
          none body).1 selfPath = lookupFS s selfPath ∧
      ((localize fl lfs tmpDirPerm selfPath s mode perm dirPerm tmpDir rng
          none body).2).isSome = true) ∧
    ((∀ p t, (body p t).2 = none) → (∀ p t, lookupFS (body p t).1 p = none) →
      lookupFS (localize fl lfs tmpDirPerm selfPath s mode perm dirPerm tmpDir rng
          none body).1 selfPath = lookupFS s selfPath) := by
  have hex : fsExists s tmpDir = true := by
    rw [fsExists, htu, existsFS_true_iff]
    exact ⟨_, hroot⟩
  have hmk := mkTmpTarget_exists fl lfs tmpDirPerm s tmpDir (tmpFlagOf selfPath)
    rng tmpPath hex hgen
  have hit := mode_not_r_is_tmp mode hmode
  have hndT : fsIsdir s tmpPath = false := by
    rw [fsIsdir, hut]
    exact isdirFS_false_of_none s tmpPath hfresh
  have hskT : dirname tmpPath = "" ∨ fsExists s (dirname tmpPath) = true :=
    Or.inr (by rw [hdt]; exact hex)
  rcases hrc : (if mode = Mode.a ∧ fsExists s selfPath = true
      then copyToLocal fl lfs s selfPath tmpPath else (s, none)) with ⟨s2, e2⟩
  have hs2 : lookupFS s2 selfPath = lookupFS s selfPath := by
    by_cases hA : mode = Mode.a ∧ fsExists s selfPath = true
    · rw [if_pos hA] at hrc
      have h0 := copyToLocal_lookup_ne fl lfs s selfPath tmpPath selfPath hut hndT hskT
        (fun e => hne e.symm)
      rw [hrc] at h0
      exact h0
    · rw [if_neg hA] at hrc
      injection hrc with h1 _
      rw [← h1]
  cases e2 with
  | some e =>
      have hloc1 : (localize fl lfs tmpDirPerm selfPath s mode perm dirPerm tmpDir rng
          none body).1 = s2 := by
        simp [localize, if_neg hmode, hit, hmk, hrc]
      have hloc2 : (localize fl lfs tmpDirPerm selfPath s mode perm dirPerm tmpDir rng
          none body).2 = some e := by
        simp [localize, if_neg hmode, hit, hmk, hrc]
      constructor
      · intro _
        rw [hloc1, hloc2]
        exact ⟨hs2, rfl⟩
      · intro _ _
        rw [hloc1]
        exact hs2
  | none =>
      rcases hb : body tmpPath s2 with ⟨s3, eb⟩
      have hs3 : lookupFS s3 selfPath = lookupFS s selfPath := by
        have h0 := hbodyP tmpPath s2
        rw [hb] at h0
        exact h0.trans hs2
      constructor
      · intro hbr
        have h4 := hbr tmpPath s2
        rw [hb] at h4
        obtain ⟨e, rfl⟩ := Option.isSome_iff_exists.mp h4
        rcases hre : targetRemove fl s3 tmpPath with ⟨s4, er⟩
        have hs4 : lookupFS s4 selfPath = lookupFS s3 selfPath := by
          have h0 : lookupFS (targetRemove fl s3 tmpPath).1 selfPath = lookupFS s3 selfPath :=
            remove_lookup_preserve fl s3 tmpPath true true selfPath
              (by rw [hut]; exact hpre)
          rw [hre] at h0
          exact h0
        have hloc1 : (localize fl lfs tmpDirPerm selfPath s mode perm dirPerm tmpDir rng
            none body).1 = s4 := by
          simp [localize, if_neg hmode, hit, hmk, hrc, hb, hre]
        have hloc2 : ((localize fl lfs tmpDirPerm selfPath s mode perm dirPerm tmpDir rng
            none body).2).isSome = true := by
          simp [localize, if_neg hmode, hit, hmk, hrc, hb, hre]
        rw [hloc1]
        exact ⟨hs4.trans hs3, hloc2⟩
      · intro hb0 hb0p
        have h4 := hb0 tmpPath s2
        rw [hb] at h4
        obtain rfl : eb = none := h4
        have h5 := hb0p tmpPath s2
        rw [hb] at h5
        have hfe : fsExists s3 tmpPath = false := by
          rw [fsExists, hut]
          exact (existsFS_false_iff s3 tmpPath).mpr h5
        rcases hre : targetRemove fl s3 tmpPath with ⟨s4, er⟩
        have hs4 : lookupFS s4 selfPath = lookupFS s3 selfPath := by
          have h0 : lookupFS (targetRemove fl s3 tmpPath).1 selfPath = lookupFS s3 selfPath :=
            remove_lookup_preserve fl s3 tmpPath true true selfPath
              (by rw [hut]; exact hpre)
          rw [hre] at h0
          exact h0
        have hloc1 : (localize fl lfs tmpDirPerm selfPath s mode perm dirPerm tmpDir rng
            none body).1 = s4 := by
          simp [localize, if_neg hmode, hit, hmk, hrc, hb, hfe, hre]
        rw [hloc1]
        exact hs4.trans hs3

/-- Witness for C1: a raising block inside a write-mode session leaves the
real target `/w/out.txt` with its old content, and the exception
propagates. -/
theorem localize_write_preserves_target_app :
    lookupFS (localize flNone lfsNone none "/w/out.txt" sW Mode.w none none "/t" [3]
        none bodyRaise).1 "/w/out.txt" = some (FSNode.file "A" 420) ∧
    ((localize flNone lfsNone none "/w/out.txt" sW Mode.w none none "/t" [3]
        none bodyRaise).2).isSome = true := by
  have h := (localize_write_preserves_target flNone lfsNone none "/w/out.txt" sW Mode.w
    none none "/t" [3] bodyRaise "/t/luigi-tmp-000000003.txt" 493
    (by decide) (by decide) rfl rfl (by decide) (by decide) rfl (by decide) (by decide)
    (fun p t => rfl)).1 (fun p t => rfl)
  exact ⟨h.1.trans (by decide), h.2⟩

/-! ## C2: temp-target cleanup -/

/-- C2 counterexample: a read-with-copy session whose pre-block copy creates
the temp file and then fails — here the post-copy chmod to the configured
`default_file_perm` is denied by the OS — propagates the error without ever
entering the try/finally that removes the temp target (the copy sits before
the `try`, lines 327-335), so the temp file remains in the temp root,
contradicting "a failed read-with-copy likewise leaves no temp artifact". -/
theorem localize_read_copy_leaks_tmp :
    existsFS (localize flDenyChmodTmp lfsPerm none "/f" sLoc Mode.r none none "/t" [7]
        (some true) bodyNoop).1 "/t/luigi-tmp-000000007" = true ∧
    (localize flDenyChmodTmp lfsPerm none "/f" sLoc Mode.r none none "/t" [7]
        (some true) bodyNoop).2 = some Err.permission := by
  constructor <;> decide

/-- C2 (amended): once a localize session reaches the caller's block, the
temporary target is removed on every exit of the block — normal return or
raise, for an arbitrary block — so its entry is absent from the final state,
provided the OS does not deny the removal.  For read mode and for append mode
on an existing target this is conditional on the pre-block copy succeeding:
that copy runs before the try/finally cleanup scope is established, and a
copy that creates the temp file and then fails leaks it (see the
counterexample). -/
theorem localize_block_exit_cleans_tmp
    (fl : Faults) (lfs : LocalFS) (tmpDirPerm : Option Nat) (selfPath : String)
    (s : FS) (mode : Mode) (perm dirPerm : Option Nat) (tmpDir : String)
    (rng : List Nat) (body : Body) (tmpPath : String) (dp : Nat)
    (hroot : lookupFS s tmpDir = some (FSNode.dir dp))
    (htu : unscheme tmpDir = tmpDir)
    (hut : unscheme tmpPath = tmpPath)
    (hgen : genTmpPath s tmpDir (tmpFlagOf selfPath) rng = some tmpPath)
    (hrm : tmpPath ∉ fl.removeDenied)
    (hcopy : (mode = Mode.r ∨ (mode = Mode.a ∧ fsExists s selfPath = true)) →
      (copyToLocal fl lfs s selfPath tmpPath).2 = none) :
    lookupFS (localize fl lfs tmpDirPerm selfPath s mode perm dirPerm tmpDir rng
        (some true) body).1 tmpPath = none := by
  have hex : fsExists s tmpDir = true := by
    rw [fsExists, htu, existsFS_true_iff]
    exact ⟨_, hroot⟩
  have hmk := mkTmpTarget_exists fl lfs tmpDirPerm s tmpDir (tmpFlagOf selfPath)
    rng tmpPath hex hgen
  by_cases hr : mode = Mode.r
  · subst hr
    rcases hc : copyToLocal fl lfs s selfPath tmpPath with ⟨s2, e2⟩
    have he2 : e2 = none := by
      have h0 := hcopy (Or.inl rfl)
      rw [hc] at h0
      exact h0
    subst he2
    rcases hb : body tmpPath s2 with ⟨s3, eb⟩
    rcases hre : targetRemove fl s3 tmpPath with ⟨s4, er⟩
    have hkill : lookupFS s4 tmpPath = none := by
      have h0 := targetRemove_kills fl s3 tmpPath hut hrm
      rw [hre] at h0
      exact h0
    have hloc1 : (localize fl lfs tmpDirPerm selfPath s Mode.r perm dirPerm tmpDir rng
        (some true) body).1 = s4 := by
      simp [localize, hmk, hc, hb, hre]
    rw [hloc1]
    exact hkill
  · rcases hrc : (if mode = Mode.a ∧ fsExists s selfPath = true
        then copyToLocal fl lfs s selfPath tmpPath else (s, none)) with ⟨s2, e2⟩
    have he2 : e2 = none := by
      by_cases hA : mode = Mode.a ∧ fsExists s selfPath = true
      · rw [if_pos hA] at hrc
        have h0 := hcopy (Or.inr hA)
        rw [hrc] at h0
        exact h0
      · rw [if_neg hA] at hrc
        injection hrc with _ h2
        exact h2.symm
    subst he2
    rcases hb : body tmpPath s2 with ⟨s3, eb⟩
    cases eb with
    | some e =>
        rcases hre : targetRemove fl s3 tmpPath with ⟨s4, er⟩
        have hkill : lookupFS s4 tmpPath = none := by
          have h0 := targetRemove_kills fl s3 tmpPath hut hrm
          rw [hre] at h0
          exact h0
        have hloc1 : (localize fl lfs tmpDirPerm selfPath s mode perm dirPerm tmpDir rng
            (some true) body).1 = s4 := by
          simp [localize, if_neg hr, hmk, hrc, hb, hre]
        rw [hloc1]
        exact hkill
    | none =>
        rcases hmv : (if fsExists s3 tmpPath = true
            then moveToLocal fl lfs s3 tmpPath selfPath perm dirPerm
            else (s3, none)) with ⟨s4, e4⟩
        rcases hre : targetRemove fl s4 tmpPath with ⟨s5, er⟩
        have hkill : lookupFS s5 tmpPath = none := by
          have h0 := targetRemove_kills fl s4 tmpPath hut hrm
          rw [hre] at h0
          exact h0
        have hloc1 : (localize fl lfs tmpDirPerm selfPath s mode perm dirPerm tmpDir rng
            (some true) body).1 = s5 := by
          simp [localize, if_neg hr, hmk, hrc, hb, hmv, hre]
        rw [hloc1]
        exact hkill

/-- Witness for C2: a write-mode session with a raising block leaves no entry
at the generated temp path. -/
theorem localize_block_exit_cleans_tmp_app :
    lookupFS (localize flNone lfsNone none "/w/out.txt" sW Mode.w none none "/t" [3]
        (some true) bodyRaise).1 "/t/luigi-tmp-000000003.txt" = none :=
  localize_block_exit_cleans_tmp flNone lfsNone none "/w/out.txt" sW Mode.w
    none none "/t" [3] bodyRaise "/t/luigi-tmp-000000003.txt" 493
    (by decide) rfl rfl (by decide) (by decide)
    (by rintro (h | ⟨h, _⟩) <;> cases h)

/-! ## C6: append sees prior data -/

/-- C6: a localize session with mode append on an existing real target first
copies the real target's current content `A` into the temporary target before
yielding it, so a caller that appends `B` to the yielded target leaves the
real target holding exactly `A ++ B` after a successful session — never `B`
alone — and the session exits without error. -/
theorem localize_append_content
    (fl : Faults) (lfs : LocalFS) (tmpDirPerm : Option Nat) (selfPath : String)
    (s : FS) (perm dirPerm : Option Nat) (tmpDir : String) (rng : List Nat)
    (tmpPath : String) (dp pa : Nat) (A B : String)
    (hself : lookupFS s selfPath = some (FSNode.file A pa))
    (hroot : lookupFS s tmpDir = some (FSNode.dir dp))
    (htu : unscheme tmpDir = tmpDir)
    (hut : unscheme tmpPath = tmpPath)
    (hus : unscheme selfPath = selfPath)
    (husd : unscheme (dirname selfPath) = dirname selfPath)
    (hgen : genTmpPath s tmpDir (tmpFlagOf selfPath) rng = some tmpPath)
    (hfresh : lookupFS s tmpPath = none)
    (hdt : dirname tmpPath = tmpDir)
    (hne : ¬ tmpPath = selfPath)
    (hsd : dirname selfPath = "" ∨ isdirFS s (dirname selfPath) = true)
    (hdsne : ¬ dirname selfPath = tmpPath)
    (hcd1 : tmpPath ∉ fl.createDenied)
    (hcm1 : tmpPath ∉ fl.chmodDenied)
    (hrm1 : tmpPath ∉ fl.removeDenied)
    (hcd2 : selfPath ∉ fl.createDenied)
    (hcm2 : selfPath ∉ fl.chmodDenied) :
    (localize fl lfs tmpDirPerm selfPath s Mode.a perm dirPerm tmpDir rng
        none (appendBody B)).2 = none ∧
    ∃ pmf, lookupFS (localize fl lfs tmpDirPerm selfPath s Mode.a perm dirPerm tmpDir rng
        none (appendBody B)).1 selfPath = some (FSNode.file (A ++ B) pmf) := by
  have hex : fsExists s tmpDir = true := by
    rw [fsExists, htu, existsFS_true_iff]
    exact ⟨_, hroot⟩
  have hmk := mkTmpTarget_exists fl lfs tmpDirPerm s tmpDir (tmpFlagOf selfPath)
    rng tmpPath hex hgen
  have hexS : fsExists s selfPath = true := by
    rw [fsExists, hus, existsFS_true_iff]
    exact ⟨_, hself⟩
  have hndT : fsIsdir s tmpPath = false := by
    rw [fsIsdir, hut]
    exact isdirFS_false_of_none s tmpPath hfresh
  have hcps := copyToLocal_success fl lfs s selfPath tmpPath A pa hut hndT
    (by rw [hdt]; exact htu)
    (Or.inr (by rw [hdt]; exact isdirFS_of_lookup_dir s tmpDir dp hroot))
    (by rw [hus]; exact hself) hcd1 (Or.inr hcm1)
  rcases hc : copyToLocal fl lfs s selfPath tmpPath with ⟨s2, e2⟩
  rw [hc] at hcps
  obtain ⟨he2, ⟨pm2, htmp2⟩, hpres2⟩ := hcps
  obtain rfl : e2 = none := he2
  have htmp2a : lookupFS s2 tmpPath = some (FSNode.file A pm2) := htmp2
  have hself2 : lookupFS s2 selfPath = some (FSNode.file A pa) := by
    have h0 : lookupFS s2 selfPath = lookupFS s selfPath :=
      hpres2 selfPath (fun e => hne e.symm)
    exact h0.trans hself
  have hb : appendBody B tmpPath s2 = (setFS s2 tmpPath (FSNode.file (A ++ B) pm2), none) := by
    simp [appendBody, htmp2a]
  set s3 := setFS s2 tmpPath (FSNode.file (A ++ B) pm2) with hs3def
  have hself3 : lookupFS s3 selfPath = some (FSNode.file A pa) := by
    rw [hs3def, lookupFS_setFS_ne _ _ _ _ (fun e => hne e.symm)]
    exact hself2
  have htmp3 : lookupFS s3 tmpPath = some (FSNode.file (A ++ B) pm2) := by
    rw [hs3def]
    exact lookupFS_setFS_self _ _ _
  have hfe3 : fsExists s3 tmpPath = true := by
    rw [fsExists, hut, existsFS_true_iff]
    exact ⟨_, htmp3⟩
  have hd3 : dirname selfPath = "" ∨ isdirFS s3 (dirname selfPath) = true := by
    rcases hsd with h | h
    · exact Or.inl h
    · right
      have e1 : lookupFS s3 (dirname selfPath) = lookupFS s (dirname selfPath) := by
        rw [hs3def, lookupFS_setFS_ne _ _ _ _ hdsne]
        exact hpres2 (dirname selfPath) hdsne
      rw [isdirFS_of_lookup_eq s3 s _ e1]
      exact h
  have hmv := move_eq_of_node fl lfs s3 tmpPath selfPath perm dirPerm
    (FSNode.file (A ++ B) pm2)
    (by rw [fsIsdir, hus, hus]
        exact isdirFS_false_of_file s3 selfPath A pa hself3)
    (by rw [hus]; exact husd)
    (by rw [hus]; exact hd3)
    (by rw [hut]; exact htmp3)
    (by rw [hus, hut]
        rintro (h | h)
        · exact hcd2 h
        · exact hrm1 h)
  rw [hus, hut] at hmv
  set S4 := setFS (delFS s3 tmpPath) selfPath (FSNode.file (A ++ B) pm2) with hS4def
  have hS4self : lookupFS S4 selfPath = some (FSNode.file (A ++ B) pm2) := by
    rw [hS4def]
    exact lookupFS_setFS_self _ _ _
  have hS4tmp : lookupFS S4 tmpPath = none := by
    rw [hS4def, lookupFS_setFS_ne _ _ _ _ hne]
    exact lookupFS_delFS_self _ _
  have hmvdone : ∃ S5 pmf, moveToLocal fl lfs s3 tmpPath selfPath perm dirPerm = (S5, none)
      ∧ lookupFS S5 selfPath = some (FSNode.file (A ++ B) pmf)
      ∧ lookupFS S5 tmpPath = none := by
    cases hrp : resolvePerm perm lfs.default_file_perm with
    | none =>
        refine ⟨S4, pm2, ?_, hS4self, hS4tmp⟩
        rw [moveToLocal, hmv, hrp]
        rfl
    | some z =>
        have hexS4 : fsExists S4 selfPath = true := by
          rw [fsExists, hus, existsFS_true_iff]
          exact ⟨_, hS4self⟩
        have hch : chmod fl S4 selfPath (some z) true =
            (setFS S4 selfPath (FSNode.file (A ++ B) z), none) := by
          simp only [chmod]
          rw [if_pos (Or.inr hexS4)]
          simp only [osChmod, hus, hS4self]
          rw [if_neg hcm2]
        refine ⟨setFS S4 selfPath (FSNode.file (A ++ B) z), z, ?_,
          lookupFS_setFS_self _ _ _, ?_⟩
        · rw [moveToLocal, hmv, hrp, hch]
        · rw [lookupFS_setFS_ne _ _ _ _ hne]
          exact hS4tmp
  obtain ⟨S5, pmf, hmv5, hS5self, hS5tmp⟩ := hmvdone
  have hrmv := targetRemove_absent fl S5 tmpPath hut hS5tmp
  have hloc1 : (localize fl lfs tmpDirPerm selfPath s Mode.a perm dirPerm tmpDir rng
      none (appendBody B)).1 = S5 := by
    simp [localize, hmk, hexS, hc, hb, hfe3, hmv5, hrmv]
  have hloc2 : (localize fl lfs tmpDirPerm selfPath s Mode.a perm dirPerm tmpDir rng
      none (appendBody B)).2 = none := by
    simp [localize, hmk, hexS, hc, hb, hfe3, hmv5, hrmv]
  exact ⟨hloc2, ⟨pmf, by rw [hloc1]; exact hS5self⟩⟩

/-- Witness for C6: appending `B` to the existing target `/w/out.txt` holding
`A` through a localize append session yields content `AB`. -/
theorem localize_append_content_app :
    (localize flNone lfsNone none "/w/out.txt" sW Mode.a none none "/t" [3]
        none (appendBody "B")).2 = none ∧
    ∃ pmf, lookupFS (localize flNone lfsNone none "/w/out.txt" sW Mode.a none none "/t" [3]
        none (appendBody "B")).1 "/w/out.txt" = some (FSNode.file ("A" ++ "B") pmf) :=
  localize_append_content flNone lfsNone none "/w/out.txt" sW none none "/t" [3]
    "/t/luigi-tmp-000000003.txt" 493 420 "A" "B"
    (by decide) (by decide) rfl rfl rfl rfl (by decide) (by decide) rfl
    (by decide) (by decide) (by decide) (by decide) (by decide) (by decide)
    (by decide) (by decide)

end LawLocal
